import Mathlib

/-!
Verification development for the reachy-recognizer coordination core.

The development shallowly embeds three Python components:

* `src/src/behaviors/behavior_module.py` — the priority-preemptive behavior
  scheduler (`BehaviorManager.execute_behavior`);
* `src/src/events/event_system.py` — the debouncing recognition-event tracker
  (`EventManager.process_recognition_results`);
* `src/src/coordination/greeting_coordinator.py` — the greeting coordinator
  (`GreetingCoordinator._on_person_recognized` and friends).

Modelling conventions:

* Python floats that are only stored and compared (confidence values, pose
  angles, durations) are modelled as rationals (`Rat`); no float arithmetic
  is performed on them by the code under study.
* Wall-clock timestamps (`time.time()`), sleeps, logging, threading and the
  robot/TTS side effects are abstracted away: external calls made by the
  coordinator are recorded in an explicit call trace, and whether a speech
  call raises is an oracle parameter (`String → Bool`).
* Python dictionaries are modelled as insertion-ordered association lists,
  matching the iteration order the source relies on; Python sets of strings
  are modelled as duplicate-free lists.
-/

namespace ReachyRecognizer

/-! ## Behavior scheduler (src/src/behaviors/behavior_module.py) -/

/-- Single action in a behavior sequence (`BehaviorAction`).  Numeric fields
are only carried along by the scheduler, never computed with. -/
structure BehaviorAction where
  roll : Rat := 0
  pitch : Rat := 0
  yaw : Rat := 0
  x : Rat := 0
  y : Rat := 0
  z : Rat := 0
  duration : Rat := 1/2
  blocking : Bool := true
deriving Repr, DecidableEq

/-- Sequence of actions defining a complete behavior (`Behavior`). -/
structure Behavior where
  name : String
  actions : List BehaviorAction
  interruptible : Bool := true
  priority : Int := 5
deriving Repr, DecidableEq

/-- State of `BehaviorManager` relevant to scheduling: the active-behavior
slot and the two statistics counters.  The worker thread, stop flag and robot
connection are abstracted away (they do not influence the accept/reject
decision of `execute_behavior`, which runs under the manager's lock). -/
structure BehaviorManager where
  current_behavior : Option Behavior := none
  behaviors_executed : Nat := 0
  behaviors_interrupted : Nat := 0
deriving Repr, DecidableEq

/-- Embedding of `BehaviorManager.execute_behavior`.  Returns the updated
manager and the boolean result (True if the behavior started, False if the
request was rejected).  Starting the worker thread is abstracted: acceptance
records the new behavior in `current_behavior`; `stop_current` on the
previous execution is abstracted into the `behaviors_interrupted` increment
performed by the source at the same spot. -/
def execute_behavior (m : BehaviorManager) (b : Behavior) : BehaviorManager × Bool :=
  match m.current_behavior with
  | some cur =>
    if !cur.interruptible then
      (m, false)
    else if b.priority ≤ cur.priority then
      (m, false)
    else
      ({ m with current_behavior := some b,
                behaviors_interrupted := m.behaviors_interrupted + 1 }, true)
  | none =>
      ({ m with current_behavior := some b }, true)

/-! ## Recognition event system (src/src/events/event_system.py) -/

/-- Recognition event types (`EventType`). -/
inductive EventType where
  | person_recognized
  | person_unknown
  | person_departed
  | no_faces
deriving Repr, DecidableEq

/-- Bounding box (top, right, bottom, left). -/
abbrev BBox := Int × Int × Int × Int

/-- Recognition event (`RecognitionEvent`).  The wall-clock `timestamp`
field of the source is omitted: it is never read by any logic under study. -/
structure RecognitionEvent where
  event_type : EventType
  person_name : String
  confidence : Rat
  bbox : Option BBox
  frame_number : Nat
deriving Repr, DecidableEq

/-- One recognition result for one subject in one frame: an element of the
`results` list passed to `process_recognition_results`. -/
structure Obs where
  name : String
  confidence : Rat
  bbox : BBox
deriving Repr, DecidableEq

/-- Per-person tracking state (`PersonState`). -/
structure PersonState where
  name : String
  consecutive_frames : Nat := 0
  departed_frames : Nat := 0
  last_confidence : Rat := 0
  last_bbox : Option BBox := none
  event_triggered : Bool := false
deriving Repr, DecidableEq

/-- State of `EventManager`.  `current_state` is the insertion-ordered
dictionary mapping person names to their `PersonState`; `event_history` is
the event deque, modelled without the `max_history` bound (the bound only
discards the oldest entries, and the single query made on the history —
its last element — agrees with the bounded deque whenever `max_history ≥ 1`).
Callbacks and the accuracy-metric counters are omitted: callback invocation
is side-effect-only and the metrics are never read back by the tracker. -/
structure EventManager where
  debounce_frames : Nat
  departed_threshold : Nat
  current_state : List (String × PersonState) := []
  event_history : List RecognitionEvent := []
  frame_count : Nat := 0
deriving Repr, DecidableEq

/-- Freshly initialized `EventManager` with explicit frame thresholds
(constructor path with `debounce_frames` / `departed_frames` given). -/
def initManager (debounce departed : Nat) : EventManager :=
  { debounce_frames := debounce, departed_threshold := departed }

/-- Dictionary lookup `self.current_state[name]` on the association list. -/
def lookupPS : List (String × PersonState) → String → Option PersonState
  | [], _ => none
  | p :: rest, n => if p.1 == n then some p.2 else lookupPS rest n

/-- Keys of the association list, in insertion order. -/
def keys (cs : List (String × PersonState)) : List String :=
  cs.map (fun p => p.1)

/-- In-place update of the entry for key `n` (mutation of the state object
held in the dictionary). -/
def updateAssoc (cs : List (String × PersonState)) (n : String) (st : PersonState) :
    List (String × PersonState) :=
  cs.map (fun p => if p.1 == n then (n, st) else p)

/-- Announce event construction: `PERSON_UNKNOWN` for the reserved name
"unknown", `PERSON_RECOGNIZED` otherwise, as in the debounce branch of
`process_recognition_results`. -/
def announceEvent (o : Obs) (fn : Nat) : RecognitionEvent :=
  { event_type := if o.name == "unknown" then .person_unknown else .person_recognized
    person_name := o.name
    confidence := o.confidence
    bbox := some o.bbox
    frame_number := fn }

/-- First loop of `process_recognition_results` (detected people): walk the
`results` list; a tracked person gets `consecutive_frames` incremented,
`departed_frames` zeroed, confidence/bbox refreshed, and fires the announce
event when the incremented counter equals `debounce_frames` and
`event_triggered` is still false; a new person gets a fresh state with
`consecutive_frames = 1` and no event check. -/
def processDetected (debounce fn : Nat) :
    List Obs → List (String × PersonState) →
    List (String × PersonState) × List RecognitionEvent
  | [], cs => (cs, [])
  | o :: rest, cs =>
    match lookupPS cs o.name with
    | some st =>
      let stepped : PersonState :=
        { st with consecutive_frames := st.consecutive_frames + 1
                  departed_frames := 0
                  last_confidence := o.confidence
                  last_bbox := some o.bbox }
      let trigger : Bool := stepped.consecutive_frames == debounce && !st.event_triggered
      let stepped2 : PersonState :=
        if trigger then { stepped with event_triggered := true } else stepped
      let next := processDetected debounce fn rest (updateAssoc cs o.name stepped2)
      (next.1, (if trigger then [announceEvent o fn] else []) ++ next.2)
    | none =>
      let fresh : PersonState :=
        { name := o.name, consecutive_frames := 1
          last_confidence := o.confidence, last_bbox := some o.bbox }
      processDetected debounce fn rest (cs ++ [(o.name, fresh)])

/-- Departed event construction. -/
def departedEvent (n : String) (fn : Nat) : RecognitionEvent :=
  { event_type := .person_departed, person_name := n, confidence := 0
    bbox := none, frame_number := fn }

/-- Second loop of `process_recognition_results` (departed people): every
tracked person absent from `current_names` gets `departed_frames`
incremented and `consecutive_frames` zeroed; when the incremented absence
counter equals the departure threshold and `event_triggered` is true, a
`PERSON_DEPARTED` event fires and the name is collected for deletion.
Returns the updated list, the events, and the `departed_names` list. -/
def processAbsent (departedThreshold fn : Nat) (currentNames : List String) :
    List (String × PersonState) →
    List (String × PersonState) × List RecognitionEvent × List String
  | [] => ([], [], [])
  | (nm, st) :: rest =>
    let next := processAbsent departedThreshold fn currentNames rest
    if currentNames.contains nm then
      ((nm, st) :: next.1, next.2.1, next.2.2)
    else
      let stepped : PersonState :=
        { st with departed_frames := st.departed_frames + 1, consecutive_frames := 0 }
      if stepped.departed_frames == departedThreshold && st.event_triggered then
        ((nm, stepped) :: next.1, departedEvent nm fn :: next.2.1, nm :: next.2.2)
      else
        ((nm, stepped) :: next.1, next.2.1, next.2.2)

/-- Check of `_last_event_was_not_no_faces`. -/
def lastEventWasNotNoFaces (history : List RecognitionEvent) : Bool :=
  match history.getLast? with
  | none => true
  | some e => !(e.event_type == EventType.no_faces)

/-- Construction of the `NO_FACES` event. -/
def noFacesEvent (fn : Nat) : RecognitionEvent :=
  { event_type := .no_faces, person_name := "", confidence := 0
    bbox := none, frame_number := fn }

/-- Body of `EventManager.process_recognition_results` after frame-number
resolution (`fc` is the new internal frame counter, `fn` the frame number
stamped on events).  Follows the source step by step: the detected-people
loop, the departed-people loop followed by deletion of the collected names,
and the edge-triggered `NO_FACES` check made against the history to which
this frame's events were already appended. -/
def processFrame (m : EventManager) (results : List Obs)
    (fc fn : Nat) : EventManager × List RecognitionEvent :=
  let currentNames : List String := results.map (fun o => o.name)
  let det := processDetected m.debounce_frames fn results m.current_state
  let abs1 := processAbsent m.departed_threshold fn currentNames det.1
  let cs3 := abs1.1.filter (fun p => !(abs1.2.2.contains p.1))
  let evs := det.2 ++ abs1.2.1
  let history1 := m.event_history ++ evs
  if results.isEmpty && cs3.isEmpty && (fc == 1 || lastEventWasNotNoFaces history1) then
    ({ m with current_state := cs3, event_history := history1 ++ [noFacesEvent fn],
              frame_count := fc },
     evs ++ [noFacesEvent fn])
  else
    ({ m with current_state := cs3, event_history := history1, frame_count := fc }, evs)

/-- Embedding of `EventManager.process_recognition_results`: resolve the
frame number (the internal counter is only advanced when no explicit frame
number is supplied), then run the per-frame body. -/
def process_recognition_results (m : EventManager) (results : List Obs)
    (frameNumber : Option Nat) : EventManager × List RecognitionEvent :=
  match frameNumber with
  | none => processFrame m results (m.frame_count + 1) (m.frame_count + 1)
  | some f => processFrame m results m.frame_count f

/-- One submitted sensing cycle: the batch of observations together with the
optional explicit frame number. -/
abbrev Cycle := List Obs × Option Nat

/-- Iterated submission of cycles, concatenating the emitted events. -/
def runCycles (m : EventManager) : List Cycle → EventManager × List RecognitionEvent
  | [] => (m, [])
  | c :: rest =>
    let step := process_recognition_results m c.1 c.2
    let next := runCycles step.1 rest
    (next.1, step.2 ++ next.2)

/-- Predicate picking out the announce events (RECOGNIZED or UNKNOWN) of a
given identity. -/
def isAnnounceFor (n : String) (e : RecognitionEvent) : Bool :=
  (e.event_type == EventType.person_recognized
     || e.event_type == EventType.person_unknown) && e.person_name == n

/-- Number of announce events for identity `n` in an event list. -/
def announceCount (n : String) (evs : List RecognitionEvent) : Nat :=
  (evs.filter (isAnnounceFor n)).length

/-- Predicate picking out the DEPARTED events of a given identity. -/
def isDepartedFor (n : String) (e : RecognitionEvent) : Bool :=
  e.event_type == EventType.person_departed && e.person_name == n

/-- Number of DEPARTED events for identity `n` in an event list. -/
def departedCount (n : String) (evs : List RecognitionEvent) : Nat :=
  (evs.filter (isDepartedFor n)).length

/-- Number of NO_FACES events in an event list. -/
def noFacesCount (evs : List RecognitionEvent) : Nat :=
  (evs.filter (fun e => e.event_type == EventType.no_faces)).length

/-- Effect of one cycle on one identity that is observed this cycle
(abstraction of the detected-people loop restricted to that identity):
returns the identity's new state and whether its announce event fired. -/
def presentStep (debounce : Nat) (o : Obs) : Option PersonState → PersonState × Bool
  | some st =>
    let stepped : PersonState :=
      { st with consecutive_frames := st.consecutive_frames + 1
                departed_frames := 0
                last_confidence := o.confidence
                last_bbox := some o.bbox }
    let trigger : Bool := stepped.consecutive_frames == debounce && !st.event_triggered
    (if trigger then { stepped with event_triggered := true } else stepped, trigger)
  | none =>
    ({ name := o.name, consecutive_frames := 1
       last_confidence := o.confidence, last_bbox := some o.bbox }, false)

/-- Effect of one cycle on one tracked identity that is absent this cycle
(abstraction of the departed-people loop restricted to that identity):
returns its new state (`none` when it is deleted) and whether its DEPARTED
event fired. -/
def absentStep (departedThreshold : Nat) (st : PersonState) : Option PersonState × Bool :=
  let stepped : PersonState :=
    { st with departed_frames := st.departed_frames + 1, consecutive_frames := 0 }
  if stepped.departed_frames == departedThreshold && st.event_triggered then
    (none, true)
  else
    (some stepped, false)

/-- Observation for identity `n` in a result batch, when present. -/
def identityObs (r : List Obs) (n : String) : Option Obs :=
  r.find? (fun o => o.name == n)

/-- Per-person counter invariant claimed by the data-model section of the
spec: the presence counter is positive exactly when the absence counter is
zero. -/
def counterInv (st : PersonState) : Prop :=
  0 < st.consecutive_frames ↔ st.departed_frames = 0

/-! ## Greeting coordinator (src/src/coordination/greeting_coordinator.py) -/

/-- External calls made by the coordinator: one gesture request to the
behavior scheduler (`behavior_manager.execute_behavior(greeting_wave)`) and
one speech-backend invocation for a subject (either `_speak_enhanced` or the
legacy `tts_manager.speak_greeting`). -/
inductive CoordCall where
  | gesture
  | speech (person : String)
deriving Repr, DecidableEq

/-- State of `GreetingCoordinator`.  The greeted-persons Python set is a
duplicate-free list; `latencies` counts recorded latency samples (the sample
values are wall-clock measurements, abstracted away); `has_legacy_tts`
records whether a legacy `tts_manager` was supplied.  The references to the
event manager, behavior manager and TTS backends, and the latency
aggregates (averages of wall-clock floats), are abstracted away. -/
structure GreetingCoordinator where
  greeted_persons : List String := []
  greeting_in_progress : Bool := false
  total_greetings : Nat := 0
  latencies : Nat := 0
  pending_greetings : List RecognitionEvent := []
  gesture_speech_delay : Rat := 3/10
  use_enhanced_voice : Bool := true
  has_legacy_tts : Bool := false
deriving Repr, DecidableEq

/-- Set insertion `self.greeted_persons.add(name)`. -/
def addGreeted (l : List String) (n : String) : List String :=
  if l.contains n then l else l ++ [n]

/-- Speech-failure oracle: `env n = true` means the speech-backend call for
subject `n` raises an exception. -/
abbrev SpeechEnv := String → Bool

/-- Embedding of `GreetingCoordinator._execute_greeting`.  Returns the
updated state, the external calls made, and whether an exception escaped.
Step order follows the source: (1) gesture request; (2) fixed sleep
(abstracted); (3) speech call, made when the enhanced voice system or the
legacy TTS manager is available — a raising call aborts the sequence here,
so steps (4) marking the subject greeted and (5) recording the latency
sample only run when speech did not raise (or no backend was available,
which merely logs a warning). -/
def execute_greeting (env : SpeechEnv) (s : GreetingCoordinator)
    (ev : RecognitionEvent) : GreetingCoordinator × List CoordCall × Bool :=
  if s.use_enhanced_voice || s.has_legacy_tts then
    if env ev.person_name then
      (s, [CoordCall.gesture, CoordCall.speech ev.person_name], true)
    else
      ({ s with greeted_persons := addGreeted s.greeted_persons ev.person_name
                total_greetings := s.total_greetings + 1
                latencies := s.latencies + 1 },
       [CoordCall.gesture, CoordCall.speech ev.person_name], false)
  else
    ({ s with greeted_persons := addGreeted s.greeted_persons ev.person_name
              total_greetings := s.total_greetings + 1
              latencies := s.latencies + 1 },
     [CoordCall.gesture], false)

/-- Stable insertion of an event into a list sorted by descending
confidence: the inserted event goes after strictly higher-confidence
entries and before equal or lower ones. -/
def insertByConfDesc (e : RecognitionEvent) :
    List RecognitionEvent → List RecognitionEvent
  | [] => [e]
  | x :: xs =>
    if e.confidence < x.confidence then x :: insertByConfDesc e xs
    else e :: x :: xs

/-- Stable sort by descending confidence, modelling
`pending_greetings.sort(key=lambda e: e.confidence, reverse=True)` (Python's
sort is stable; any stable sort produces the same list). -/
def sortByConfDesc (l : List RecognitionEvent) : List RecognitionEvent :=
  l.foldr insertByConfDesc []

/-- Length is preserved by stable insertion. -/
theorem length_insertByConfDesc (e : RecognitionEvent) (l : List RecognitionEvent) :
    (insertByConfDesc e l).length = l.length + 1 := by
  induction l with
  | nil => rfl
  | cons x xs ih =>
    simp only [insertByConfDesc]
    split <;> simp [ih]

/-- Length is preserved by the confidence sort. -/
theorem length_sortByConfDesc (l : List RecognitionEvent) :
    (sortByConfDesc l).length = l.length := by
  induction l with
  | nil => rfl
  | cons x xs ih =>
    simp only [sortByConfDesc, List.foldr_cons, length_insertByConfDesc,
      List.length_cons] at *
    omega

/-- Pending queue is untouched by `_execute_greeting`. -/
theorem execute_greeting_pending (env : SpeechEnv) (s : GreetingCoordinator)
    (ev : RecognitionEvent) :
    (execute_greeting env s ev).1.pending_greetings = s.pending_greetings := by
  unfold execute_greeting
  split
  · split <;> rfl
  · rfl

/-- Embedding of `GreetingCoordinator._process_pending_greetings`: if the
queue is nonempty, sort it in place by descending confidence, find the
first (hence highest-confidence) entry whose subject is not yet greeted,
remove it, run `_execute_greeting` on it with the in-progress flag set
(exceptions caught), clear the flag, and recurse; when every queued entry
is already greeted, stop (the sorted queue is left in place). -/
def process_pending_greetings (env : SpeechEnv) (s : GreetingCoordinator) :
    GreetingCoordinator × List CoordCall :=
  if hemp : s.pending_greetings.isEmpty then (s, [])
  else
    let sorted := sortByConfDesc s.pending_greetings
    match h : sorted.find? (fun e => !(s.greeted_persons.contains e.person_name)) with
    | none => ({ s with pending_greetings := sorted }, [])
    | some e =>
      let s1 : GreetingCoordinator :=
        { s with pending_greetings := sorted.erase e, greeting_in_progress := true }
      let r := execute_greeting env s1 e
      let s3 : GreetingCoordinator := { r.1 with greeting_in_progress := false }
      let rec' := process_pending_greetings env s3
      (rec'.1, r.2.1 ++ rec'.2)
termination_by s.pending_greetings.length
decreasing_by
  have hm : e ∈ sorted := List.mem_of_find?_eq_some h
  have hlen : sorted.length = s.pending_greetings.length := length_sortByConfDesc _
  have hpos : 0 < sorted.length := List.length_pos.mpr (by
    intro hnil; rw [hnil] at hm; exact (List.not_mem_nil e) hm)
  simp only [execute_greeting_pending]
  show ((sortByConfDesc s.pending_greetings).erase e).length < s.pending_greetings.length
  rw [List.length_erase_of_mem hm]
  omega

/-- Embedding of `GreetingCoordinator._on_person_recognized`: discard if the
subject was already greeted this session; queue the event if a greeting is
in progress; otherwise set the in-progress flag, run the coordinated
greeting (exceptions caught and logged at this boundary), clear the flag in
the `finally` block, and process the pending queue. -/
def on_person_recognized (env : SpeechEnv) (s : GreetingCoordinator)
    (ev : RecognitionEvent) : GreetingCoordinator × List CoordCall :=
  if s.greeted_persons.contains ev.person_name then (s, [])
  else if s.greeting_in_progress then
    ({ s with pending_greetings := s.pending_greetings ++ [ev] }, [])
  else
    let s1 : GreetingCoordinator := { s with greeting_in_progress := true }
    let r := execute_greeting env s1 ev
    let s3 : GreetingCoordinator := { r.1 with greeting_in_progress := false }
    let r2 := process_pending_greetings env s3
    (r2.1, r.2.1 ++ r2.2)

/-- Embedding of `GreetingCoordinator.reset_session`: clear the greeted set
and the pending queue, touch nothing else. -/
def reset_session (s : GreetingCoordinator) : GreetingCoordinator :=
  { s with greeted_persons := [], pending_greetings := [] }

/-! ## Association-list lemmas -/

theorem lookupPS_append_some {cs cs' : List (String × PersonState)} {n : String}
    {v : PersonState} (h : lookupPS cs n = some v) :
    lookupPS (cs ++ cs') n = some v := by
  induction cs with
  | nil => simp [lookupPS] at h
  | cons p rest ih =>
    simp only [lookupPS, List.cons_append] at h ⊢
    by_cases hp : (p.1 == n) = true
    · simpa [hp] using h
    · simp only [hp] at h ⊢
      simp only [Bool.false_eq_true, if_false]
      exact ih h

theorem lookupPS_append_none {cs : List (String × PersonState)} {n : String}
    (h : lookupPS cs n = none) (cs' : List (String × PersonState)) :
    lookupPS (cs ++ cs') n = lookupPS cs' n := by
  induction cs with
  | nil => simp
  | cons p rest ih =>
    simp only [lookupPS, List.cons_append] at h ⊢
    by_cases hp : (p.1 == n) = true
    · simp [hp] at h
    · simp only [hp, Bool.false_eq_true, if_false] at h ⊢
      exact ih h

theorem lookupPS_updateAssoc_ne {n k : String} (h : n ≠ k)
    (cs : List (String × PersonState)) (st : PersonState) :
    lookupPS (updateAssoc cs k st) n = lookupPS cs n := by
  unfold updateAssoc
  induction cs with
  | nil => rfl
  | cons p rest ih =>
    simp only [List.map_cons, lookupPS]
    by_cases hp : (p.1 == k) = true
    · have h1 : p.1 = k := by simpa using hp
      have hk : (k == n) = false := by
        simp only [beq_eq_false_iff_ne, ne_eq]
        exact fun hkn => h hkn.symm
      have hpn : (p.1 == n) = false := by rw [h1]; exact hk
      simp only [hp, if_true, lookupPS, hk, hpn, Bool.false_eq_true, if_false]
      exact ih
    · simp only [hp, Bool.false_eq_true, if_false, lookupPS]
      by_cases hn : (p.1 == n) = true
      · simp [hn]
      · simp only [hn, Bool.false_eq_true, if_false]
        exact ih

theorem lookupPS_updateAssoc_self {cs : List (String × PersonState)} {k : String}
    {v : PersonState} (h : lookupPS cs k = some v) (st : PersonState) :
    lookupPS (updateAssoc cs k st) k = some st := by
  unfold updateAssoc
  induction cs with
  | nil => simp [lookupPS] at h
  | cons p rest ih =>
    simp only [lookupPS] at h
    simp only [List.map_cons]
    by_cases hp : (p.1 == k) = true
    · simp [hp, lookupPS]
    · simp only [hp, Bool.false_eq_true, if_false] at h
      simp only [hp, Bool.false_eq_true, if_false, lookupPS]
      exact ih h

theorem keys_updateAssoc (cs : List (String × PersonState)) (k : String)
    (st : PersonState) : keys (updateAssoc cs k st) = keys cs := by
  unfold updateAssoc keys
  induction cs with
  | nil => rfl
  | cons p rest ih =>
    simp only [List.map_cons]
    by_cases hp : (p.1 == k) = true
    · have h1 : p.1 = k := by simpa using hp
      simp only [hp, if_true]
      rw [ih, h1]
    · simp only [hp, Bool.false_eq_true, if_false]
      rw [ih]

theorem lookupPS_eq_none_iff (cs : List (String × PersonState)) (n : String) :
    lookupPS cs n = none ↔ n ∉ keys cs := by
  induction cs with
  | nil => simp [lookupPS, keys]
  | cons p rest ih =>
    simp only [lookupPS, keys, List.map_cons, List.mem_cons]
    by_cases hp : (p.1 == n) = true
    · have : p.1 = n := by simpa using hp
      simp [hp, this]
    · have : ¬ p.1 = n := by simpa using hp
      simp only [hp, Bool.false_eq_true, if_false, ih, keys]
      constructor
      · intro hn hc
        rcases hc with hc | hc
        · exact this hc.symm
        · exact hn hc
      · intro hn
        exact fun hc => hn (Or.inr hc)

theorem lookupPS_mem {cs : List (String × PersonState)} {n : String}
    {st : PersonState} (h : lookupPS cs n = some st) : (n, st) ∈ cs := by
  induction cs with
  | nil => simp [lookupPS] at h
  | cons p rest ih =>
    simp only [lookupPS] at h
    by_cases hp : (p.1 == n) = true
    · have h1 : p.1 = n := by simpa using hp
      simp only [hp, if_true, Option.some.injEq] at h
      cases p with
      | mk a b =>
        simp only at h1 h
        rw [← h1, ← h]
        exact List.mem_cons_self _ _
    · simp only [hp, Bool.false_eq_true, if_false] at h
      exact List.mem_cons_of_mem _ (ih h)

theorem lookupPS_filter_key (f : String → Bool) (cs : List (String × PersonState))
    (n : String) :
    lookupPS (cs.filter (fun q => f q.1)) n = if f n then lookupPS cs n else none := by
  induction cs with
  | nil => simp [lookupPS]
  | cons p rest ih =>
    by_cases hp : (p.1 == n) = true
    · have h1 : p.1 = n := by simpa using hp
      by_cases hf : f n = true
      · simp [List.filter_cons, h1, hf, lookupPS]
      · have : f p.1 = false := by rw [h1]; simpa using hf
        simp only [List.filter_cons, this, Bool.false_eq_true, if_false, ih]
        simp [hf]
    · by_cases hf2 : f p.1 = true
      · simp only [List.filter_cons, hf2, if_true, lookupPS, hp, Bool.false_eq_true,
          if_false]
        exact ih
      · simp only [List.filter_cons, hf2, Bool.false_eq_true, if_false, ih, lookupPS,
          hp]

theorem announceCount_append (n : String) (a b : List RecognitionEvent) :
    announceCount n (a ++ b) = announceCount n a + announceCount n b := by
  simp [announceCount, List.filter_append]

theorem departedCount_append (n : String) (a b : List RecognitionEvent) :
    departedCount n (a ++ b) = departedCount n a + departedCount n b := by
  simp [departedCount, List.filter_append]

theorem noFacesCount_append (a b : List RecognitionEvent) :
    noFacesCount (a ++ b) = noFacesCount a + noFacesCount b := by
  simp [noFacesCount, List.filter_append]

/-! ## Event-kind lemmas -/

theorem isAnnounceFor_announceEvent (n : String) (o : Obs) (fn : Nat) :
    isAnnounceFor n (announceEvent o fn) = (o.name == n) := by
  unfold isAnnounceFor announceEvent
  by_cases h : (o.name == "unknown") = true <;> simp [h]

theorem isDepartedFor_announceEvent (n : String) (o : Obs) (fn : Nat) :
    isDepartedFor n (announceEvent o fn) = false := by
  unfold isDepartedFor announceEvent
  by_cases h : (o.name == "unknown") = true <;> simp [h]

theorem isAnnounceFor_departedEvent (n m : String) (fn : Nat) :
    isAnnounceFor n (departedEvent m fn) = false := by
  simp [isAnnounceFor, departedEvent]

theorem isDepartedFor_departedEvent (n m : String) (fn : Nat) :
    isDepartedFor n (departedEvent m fn) = (m == n) := by
  simp [isDepartedFor, departedEvent]

theorem announceCount_nil (n : String) : announceCount n [] = 0 := rfl

theorem departedCount_nil (n : String) : departedCount n [] = 0 := rfl

theorem announceCount_cons (n : String) (e : RecognitionEvent)
    (evs : List RecognitionEvent) :
    announceCount n (e :: evs) =
      (if isAnnounceFor n e = true then 1 else 0) + announceCount n evs := by
  simp only [announceCount, List.filter_cons]
  split
  · simp [Nat.add_comm]
  · simp

theorem departedCount_cons (n : String) (e : RecognitionEvent)
    (evs : List RecognitionEvent) :
    departedCount n (e :: evs) =
      (if isDepartedFor n e = true then 1 else 0) + departedCount n evs := by
  simp only [departedCount, List.filter_cons]
  split
  · simp [Nat.add_comm]
  · simp

theorem noFacesCount_cons (e : RecognitionEvent) (evs : List RecognitionEvent) :
    noFacesCount (e :: evs) =
      (if (e.event_type == EventType.no_faces) = true then 1 else 0) + noFacesCount evs := by
  simp only [noFacesCount, List.filter_cons]
  split
  · simp [Nat.add_comm]
  · simp

/-! ## Detected-people loop: per-identity projection -/

theorem lookupPS_append_single_ne {n k : String} (h : k ≠ n)
    (cs : List (String × PersonState)) (v : PersonState) :
    lookupPS (cs ++ [(k, v)]) n = lookupPS cs n := by
  cases hcs : lookupPS cs n with
  | some w => exact lookupPS_append_some hcs
  | none =>
    rw [lookupPS_append_none hcs]
    simp [lookupPS, h, hcs]

theorem processDetected_not_mem {d fn : Nat} {n : String} :
    ∀ (r : List Obs) (cs : List (String × PersonState)),
    n ∉ r.map (fun o => o.name) →
    lookupPS (processDetected d fn r cs).1 n = lookupPS cs n ∧
    announceCount n (processDetected d fn r cs).2 = 0
  | [], cs, _ => by simp [processDetected, announceCount_nil]
  | o :: rest, cs, hn => by
    have hon : o.name ≠ n := by
      intro he
      exact hn (List.mem_map.mpr ⟨o, List.mem_cons_self _ _, he⟩)
    have hrest : n ∉ rest.map (fun o => o.name) := by
      intro hm
      apply hn
      simp only [List.map_cons, List.mem_cons]
      exact Or.inr hm
    cases hcs : lookupPS cs o.name with
    | some st =>
      simp only [processDetected, hcs]
      constructor
      · rw [(processDetected_not_mem rest _ hrest).1,
          lookupPS_updateAssoc_ne (fun he => hon he.symm)]
      · rw [announceCount_append, (processDetected_not_mem rest _ hrest).2]
        split
        · rw [announceCount_cons, announceCount_nil, isAnnounceFor_announceEvent]
          simp [hon]
        · simp [announceCount_nil]
    | none =>
      simp only [processDetected, hcs]
      constructor
      · rw [(processDetected_not_mem rest _ hrest).1, lookupPS_append_single_ne hon]
      · exact (processDetected_not_mem rest _ hrest).2

theorem processDetected_mem {d fn : Nat} {n : String} :
    ∀ (r : List Obs) (cs : List (String × PersonState)) (o : Obs),
    (r.map (fun o => o.name)).Nodup → o ∈ r → o.name = n →
    lookupPS (processDetected d fn r cs).1 n =
      some (presentStep d o (lookupPS cs n)).1 ∧
    announceCount n (processDetected d fn r cs).2 =
      (if (presentStep d o (lookupPS cs n)).2 = true then 1 else 0)
  | [], _, o, _, ho, _ => by simp at ho
  | o' :: rest, cs, o, hnd, ho, hname => by
    have hnd2 : (o'.name :: rest.map (fun o => o.name)).Nodup := by simpa using hnd
    rcases List.mem_cons.mp ho with he | ht
    · subst he
      have hrest : n ∉ rest.map (fun o => o.name) := by
        rw [← hname]
        exact (List.nodup_cons.mp hnd2).1
      subst hname
      cases hcs : lookupPS cs o.name with
      | some st =>
        simp only [processDetected, hcs]
        constructor
        · rw [(processDetected_not_mem rest _ hrest).1,
            lookupPS_updateAssoc_self hcs _]
          simp [presentStep, hcs]
        · rw [announceCount_append, (processDetected_not_mem rest _ hrest).2]
          simp only [presentStep, hcs]
          split
          · rw [announceCount_cons, announceCount_nil, isAnnounceFor_announceEvent]
            simp_all
          · simp_all [announceCount_nil]
      | none =>
        simp only [processDetected, hcs]
        constructor
        · rw [(processDetected_not_mem rest _ hrest).1, lookupPS_append_none hcs]
          simp [lookupPS, presentStep]
        · rw [(processDetected_not_mem rest _ hrest).2]
          simp [presentStep]
    · have hon : o'.name ≠ n := by
        intro he
        have hmem : n ∈ rest.map (fun o => o.name) := by
          rw [← hname]
          exact List.mem_map.mpr ⟨o, ht, rfl⟩
        exact (List.nodup_cons.mp hnd2).1 (he ▸ hmem)
      have hnd' : (rest.map (fun o => o.name)).Nodup := (List.nodup_cons.mp hnd2).2
      cases hcs : lookupPS cs o'.name with
      | some st =>
        simp only [processDetected, hcs]
        constructor
        · rw [(processDetected_mem rest _ o hnd' ht hname).1,
            lookupPS_updateAssoc_ne (fun he => hon he.symm)]
        · rw [announceCount_append, (processDetected_mem rest _ o hnd' ht hname).2,
            lookupPS_updateAssoc_ne (fun he => hon he.symm)]
          split
          · rw [announceCount_cons, announceCount_nil, isAnnounceFor_announceEvent]
            simp [hon]
          · simp [announceCount_nil]
      | none =>
        simp only [processDetected, hcs]
        constructor
        · rw [(processDetected_mem rest _ o hnd' ht hname).1,
            lookupPS_append_single_ne hon]
        · rw [(processDetected_mem rest _ o hnd' ht hname).2,
            lookupPS_append_single_ne hon]

/-! ## Departed-people loop: per-identity projection -/

theorem absentStep_eq (dep : Nat) (st : PersonState) :
    absentStep dep st =
      (if (st.departed_frames + 1 == dep && st.event_triggered) = true then none
       else some { st with departed_frames := st.departed_frames + 1,
                           consecutive_frames := 0 },
       (st.departed_frames + 1 == dep && st.event_triggered)) := by
  unfold absentStep
  by_cases h : (st.departed_frames + 1 == dep && st.event_triggered) = true
  · simp [h]
  · simp [h]

theorem processAbsent_not_key {dep fn : Nat} {cn : List String} {n : String} :
    ∀ cs : List (String × PersonState), n ∉ keys cs →
    lookupPS (processAbsent dep fn cn cs).1 n = none ∧
    departedCount n (processAbsent dep fn cn cs).2.1 = 0 ∧
    (processAbsent dep fn cn cs).2.2.contains n = false
  | [], _ => by simp [processAbsent, lookupPS, departedCount_nil]
  | (nm, st) :: rest, hn => by
    have hnm : nm ≠ n := by
      intro he
      exact hn (by simp [keys, he])
    have hrest : n ∉ keys rest := by
      intro hm
      exact hn (by simp only [keys, List.map_cons, List.mem_cons]; exact Or.inr hm)
    have ih := @processAbsent_not_key dep fn cn n rest hrest
    have hbeq : (nm == n) = false := by simpa using hnm
    cases hc : cn.contains nm with
    | true =>
      simp only [processAbsent, hc, if_true]
      try dsimp only
      simp only [lookupPS, hbeq, Bool.false_eq_true, if_false]
      exact ih
    | false =>
      simp only [processAbsent, hc, Bool.false_eq_true, if_false]
      split
      · try dsimp only
        refine ⟨by simp [lookupPS, hbeq, ih.1], ?_, ?_⟩
        · rw [departedCount_cons, isDepartedFor_departedEvent, ih.2.1]
          simp [hbeq]
        · have h22 : n ∉ (processAbsent dep fn cn rest).2.2 := by simpa using ih.2.2
          simp [Ne.symm hnm, h22]
      · try dsimp only
        simp only [lookupPS, hbeq, Bool.false_eq_true, if_false]
        exact ih

theorem processAbsent_present_key {dep fn : Nat} {cn : List String} {n : String}
    (hcn : cn.contains n = true) :
    ∀ cs : List (String × PersonState), (keys cs).Nodup →
    lookupPS (processAbsent dep fn cn cs).1 n = lookupPS cs n ∧
    departedCount n (processAbsent dep fn cn cs).2.1 = 0 ∧
    (processAbsent dep fn cn cs).2.2.contains n = false
  | [], _ => by simp [processAbsent, departedCount_nil]
  | (nm, st) :: rest, hk => by
    have hk1 : (nm :: keys rest).Nodup := hk
    have hk2 := List.nodup_cons.mp hk1
    by_cases he : nm = n
    · subst he
      have ihnk := @processAbsent_not_key dep fn cn nm rest hk2.1
      simp only [processAbsent, hcn, if_true]
      try dsimp only
      simp only [lookupPS, beq_self_eq_true, if_true]
      exact ⟨by trivial, ihnk.2.1, ihnk.2.2⟩
    · have hbeq : (nm == n) = false := by simpa using he
      have ih := @processAbsent_present_key dep fn cn n hcn rest hk2.2
      cases hc : cn.contains nm with
      | true =>
        simp only [processAbsent, hc, if_true]
        try dsimp only
        simp only [lookupPS, hbeq, Bool.false_eq_true, if_false]
        exact ih
      | false =>
        simp only [processAbsent, hc, Bool.false_eq_true, if_false]
        split
        · try dsimp only
          refine ⟨by simp [lookupPS, hbeq, ih.1], ?_, ?_⟩
          · rw [departedCount_cons, isDepartedFor_departedEvent, ih.2.1]
            simp [hbeq]
          · have h22 : n ∉ (processAbsent dep fn cn rest).2.2 := by simpa using ih.2.2
            simp [Ne.symm he, h22]
        · try dsimp only
          simp only [lookupPS, hbeq, Bool.false_eq_true, if_false]
          exact ih

theorem processAbsent_absent_key {dep fn : Nat} {cn : List String} {n : String}
    (hcn : cn.contains n = false) :
    ∀ (cs : List (String × PersonState)) (st : PersonState), (keys cs).Nodup →
    lookupPS cs n = some st →
    lookupPS (processAbsent dep fn cn cs).1 n =
      some { st with departed_frames := st.departed_frames + 1,
                     consecutive_frames := 0 } ∧
    departedCount n (processAbsent dep fn cn cs).2.1 =
      (if (absentStep dep st).2 = true then 1 else 0) ∧
    (processAbsent dep fn cn cs).2.2.contains n = (absentStep dep st).2
  | [], st, _, hl => by simp [lookupPS] at hl
  | (nm, st') :: rest, st, hk, hl => by
    have hk1 : (nm :: keys rest).Nodup := hk
    have hk2 := List.nodup_cons.mp hk1
    by_cases he : nm = n
    · subst he
      have hst : st' = st := by
        simpa [lookupPS] using hl
      subst hst
      have ihnk := @processAbsent_not_key dep fn cn nm rest hk2.1
      simp only [processAbsent, hcn, Bool.false_eq_true, if_false]
      rw [absentStep_eq]
      try dsimp only
      cases hcond : (st'.departed_frames + 1 == dep && st'.event_triggered) with
      | true =>
        simp only [hcond, if_true]
        try dsimp only
        refine ⟨by simp [lookupPS], ?_, ?_⟩
        · rw [departedCount_cons, isDepartedFor_departedEvent, ihnk.2.1]
          simp
        · simp [ihnk.2.2]
      | false =>
        simp only [hcond, Bool.false_eq_true, if_false]
        try dsimp only
        refine ⟨by simp [lookupPS], ?_, ?_⟩
        · simp [ihnk.2.1]
        · have h22 : nm ∉ (processAbsent dep fn cn rest).2.2 := by
            simpa using ihnk.2.2
          simp [h22]
    · have hbeq : (nm == n) = false := by simpa using he
      have hl' : lookupPS rest n = some st := by
        simpa [lookupPS, hbeq] using hl
      have ih := @processAbsent_absent_key dep fn cn n hcn rest st hk2.2 hl'
      cases hc : cn.contains nm with
      | true =>
        simp only [processAbsent, hc, if_true]
        try dsimp only
        simp only [lookupPS, hbeq, Bool.false_eq_true, if_false]
        exact ih
      | false =>
        simp only [processAbsent, hc, Bool.false_eq_true, if_false]
        split
        · try dsimp only
          refine ⟨by simp [lookupPS, hbeq, ih.1], ?_, ?_⟩
          · rw [departedCount_cons, isDepartedFor_departedEvent, ih.2.1]
            simp [hbeq]
          · have hne : ¬ n = nm := Ne.symm he
            have h22 : decide (n ∈ (processAbsent dep fn cn rest).2.2) =
                (absentStep dep st).2 := by
              simpa using ih.2.2
            simp [hne, h22]
        · try dsimp only
          simp only [lookupPS, hbeq, Bool.false_eq_true, if_false]
          exact ih

/-! ## Key preservation and nodup preservation -/

theorem keys_processAbsent {dep fn : Nat} {cn : List String} :
    ∀ cs : List (String × PersonState),
    keys (processAbsent dep fn cn cs).1 = keys cs
  | [] => rfl
  | (nm, st) :: rest => by
    have ih := @keys_processAbsent dep fn cn rest
    cases hc : cn.contains nm with
    | true =>
      simp only [processAbsent, hc, if_true]
      show nm :: keys (processAbsent dep fn cn rest).1 = nm :: keys rest
      rw [ih]
    | false =>
      simp only [processAbsent, hc, Bool.false_eq_true, if_false]
      split
      · show nm :: keys (processAbsent dep fn cn rest).1 = nm :: keys rest
        rw [ih]
      · show nm :: keys (processAbsent dep fn cn rest).1 = nm :: keys rest
        rw [ih]

theorem keysNodup_processDetected {d fn : Nat} :
    ∀ (r : List Obs) (cs : List (String × PersonState)), (keys cs).Nodup →
    (keys (processDetected d fn r cs).1).Nodup
  | [], cs, hk => hk
  | o :: rest, cs, hk => by
    cases hcs : lookupPS cs o.name with
    | some st =>
      simp only [processDetected, hcs]
      apply keysNodup_processDetected rest
      rw [keys_updateAssoc]
      exact hk
    | none =>
      simp only [processDetected, hcs]
      apply keysNodup_processDetected rest
      have hno : o.name ∉ keys cs := (lookupPS_eq_none_iff cs o.name).mp hcs
      have hkeq : keys (cs ++ [(o.name,
          ({ name := o.name, consecutive_frames := 1,
             last_confidence := o.confidence,
             last_bbox := some o.bbox } : PersonState))]) = keys cs ++ [o.name] := by
        simp [keys]
      rw [hkeq, List.nodup_append]
      exact ⟨hk, List.nodup_singleton _, by
        intro a ha hb
        simp only [List.mem_singleton] at hb
        subst hb
        exact hno ha⟩


theorem keysNodup_filter (p : String × PersonState → Bool)
    (cs : List (String × PersonState)) (hk : (keys cs).Nodup) :
    (keys (cs.filter p)).Nodup := by
  have hs : keys (cs.filter p) |>.Sublist (keys cs) :=
    List.Sublist.map _ (List.filter_sublist cs)
  exact hk.sublist hs

/-! ## Event-kind lemmas, continued -/

theorem isAnnounceFor_noFacesEvent (n : String) (fn : Nat) :
    isAnnounceFor n (noFacesEvent fn) = false := by
  simp [isAnnounceFor, noFacesEvent]

theorem isDepartedFor_noFacesEvent (n : String) (fn : Nat) :
    isDepartedFor n (noFacesEvent fn) = false := by
  simp [isDepartedFor, noFacesEvent]

theorem noFaces_announceEvent (o : Obs) (fn : Nat) :
    ((announceEvent o fn).event_type == EventType.no_faces) = false := by
  unfold announceEvent
  by_cases h : (o.name == "unknown") = true <;> simp [h]

theorem noFaces_departedEvent (nm : String) (fn : Nat) :
    ((departedEvent nm fn).event_type == EventType.no_faces) = false := by
  simp [departedEvent]

theorem noFacesCount_nil : noFacesCount [] = 0 := rfl

/-! ## Whole-phase event counts -/

theorem departedCount_processDetected {d fn : Nat} {n : String} :
    ∀ (r : List Obs) (cs : List (String × PersonState)),
    departedCount n (processDetected d fn r cs).2 = 0
  | [], _ => rfl
  | o :: rest, cs => by
    cases hcs : lookupPS cs o.name with
    | some st =>
      simp only [processDetected, hcs]
      rw [departedCount_append, departedCount_processDetected rest _]
      split
      · rw [departedCount_cons, isDepartedFor_announceEvent, departedCount_nil]
        simp
      · simp [departedCount_nil]
    | none =>
      simp only [processDetected, hcs]
      exact departedCount_processDetected rest _

theorem noFacesCount_processDetected {d fn : Nat} :
    ∀ (r : List Obs) (cs : List (String × PersonState)),
    noFacesCount (processDetected d fn r cs).2 = 0
  | [], _ => rfl
  | o :: rest, cs => by
    cases hcs : lookupPS cs o.name with
    | some st =>
      simp only [processDetected, hcs]
      rw [noFacesCount_append, noFacesCount_processDetected rest _]
      split
      · rw [noFacesCount_cons, noFaces_announceEvent, noFacesCount_nil]
        simp
      · simp [noFacesCount_nil]
    | none =>
      simp only [processDetected, hcs]
      exact noFacesCount_processDetected rest _

theorem announceCount_processAbsent {dep fn : Nat} {cn : List String} {n : String} :
    ∀ cs : List (String × PersonState),
    announceCount n (processAbsent dep fn cn cs).2.1 = 0
  | [] => rfl
  | (nm, st) :: rest => by
    have ih := @announceCount_processAbsent dep fn cn n rest
    cases hc : cn.contains nm with
    | true =>
      simp only [processAbsent, hc, if_true]
      try dsimp only
      exact ih
    | false =>
      simp only [processAbsent, hc, Bool.false_eq_true, if_false]
      split
      · try dsimp only
        rw [announceCount_cons, isAnnounceFor_departedEvent, ih]
        simp
      · try dsimp only
        exact ih

theorem noFacesCount_processAbsent {dep fn : Nat} {cn : List String} :
    ∀ cs : List (String × PersonState),
    noFacesCount (processAbsent dep fn cn cs).2.1 = 0
  | [] => rfl
  | (nm, st) :: rest => by
    have ih := @noFacesCount_processAbsent dep fn cn rest
    cases hc : cn.contains nm with
    | true =>
      simp only [processAbsent, hc, if_true]
      try dsimp only
      exact ih
    | false =>
      simp only [processAbsent, hc, Bool.false_eq_true, if_false]
      split
      · try dsimp only
        rw [noFacesCount_cons, noFaces_departedEvent, ih]
        simp
      · try dsimp only
        exact ih

/-! ## Per-identity projection through one whole frame -/

theorem lookupPS_filter_dns (dns : List String) (cs : List (String × PersonState))
    (n : String) :
    lookupPS (cs.filter (fun p => !(dns.contains p.1))) n =
      if !(dns.contains n) then lookupPS cs n else none :=
  lookupPS_filter_key (fun k => !(dns.contains k)) cs n

theorem processFrame_current_state (m : EventManager) (r : List Obs) (fc fn : Nat) :
    (processFrame m r fc fn).1.current_state =
      ((processAbsent m.departed_threshold fn (r.map (fun o => o.name))
          (processDetected m.debounce_frames fn r m.current_state).1).1.filter
        (fun p => !((processAbsent m.departed_threshold fn (r.map (fun o => o.name))
          (processDetected m.debounce_frames fn r m.current_state).1).2.2.contains p.1))) := by
  simp only [processFrame]
  split <;> rfl

theorem processFrame_fields (m : EventManager) (r : List Obs) (fc fn : Nat) :
    (processFrame m r fc fn).1.debounce_frames = m.debounce_frames ∧
    (processFrame m r fc fn).1.departed_threshold = m.departed_threshold := by
  simp only [processFrame]
  split <;> exact ⟨rfl, rfl⟩

theorem processFrame_announceCount (m : EventManager) (r : List Obs) (fc fn : Nat)
    (n : String) :
    announceCount n (processFrame m r fc fn).2 =
      announceCount n (processDetected m.debounce_frames fn r m.current_state).2 := by
  simp only [processFrame]
  split
  · try dsimp only
    rw [announceCount_append, announceCount_append, announceCount_processAbsent,
      announceCount_cons, announceCount_nil, isAnnounceFor_noFacesEvent]
    simp
  · try dsimp only
    rw [announceCount_append, announceCount_processAbsent]
    simp

theorem processFrame_departedCount (m : EventManager) (r : List Obs) (fc fn : Nat)
    (n : String) :
    departedCount n (processFrame m r fc fn).2 =
      departedCount n ((processAbsent m.departed_threshold fn
        (r.map (fun o => o.name))
        (processDetected m.debounce_frames fn r m.current_state).1).2.1) := by
  simp only [processFrame]
  split
  · try dsimp only
    rw [departedCount_append, departedCount_append, departedCount_processDetected,
      departedCount_cons, departedCount_nil, isDepartedFor_noFacesEvent]
    simp
  · try dsimp only
    rw [departedCount_append, departedCount_processDetected]
    simp

theorem keysNodup_processFrame (m : EventManager) (r : List Obs) (fc fn : Nat)
    (hk : (keys m.current_state).Nodup) :
    (keys (processFrame m r fc fn).1.current_state).Nodup := by
  rw [processFrame_current_state]
  apply keysNodup_filter
  rw [keys_processAbsent]
  exact keysNodup_processDetected r _ hk

theorem processFrame_identity_present {m : EventManager} {r : List Obs}
    {fc fn : Nat} {n : String} {o : Obs}
    (hk : (keys m.current_state).Nodup)
    (hnd : (r.map (fun o => o.name)).Nodup)
    (ho : o ∈ r) (hname : o.name = n) :
    lookupPS (processFrame m r fc fn).1.current_state n =
      some (presentStep m.debounce_frames o (lookupPS m.current_state n)).1 ∧
    announceCount n (processFrame m r fc fn).2 =
      (if (presentStep m.debounce_frames o (lookupPS m.current_state n)).2 = true
       then 1 else 0) ∧
    departedCount n (processFrame m r fc fn).2 = 0 := by
  have hmem : n ∈ r.map (fun o => o.name) := List.mem_map.mpr ⟨o, ho, hname⟩
  have hcontains : (r.map (fun o => o.name)).contains n = true := by simpa using hmem
  have hk1 := @keysNodup_processDetected m.debounce_frames fn
    r m.current_state hk
  have hA := @processDetected_mem m.debounce_frames fn n
    r m.current_state o hnd ho hname
  have hB := @processAbsent_present_key m.departed_threshold fn
    (r.map (fun o => o.name)) n hcontains _ hk1
  refine ⟨?_, ?_, ?_⟩
  · rw [processFrame_current_state, lookupPS_filter_dns, hB.2.2]
    simp only [Bool.not_false, if_true]
    rw [hB.1, hA.1]
  · rw [processFrame_announceCount, hA.2]
  · rw [processFrame_departedCount, hB.2.1]

theorem processFrame_identity_absent {m : EventManager} {r : List Obs}
    {fc fn : Nat} {n : String} {st : PersonState}
    (hk : (keys m.current_state).Nodup)
    (hn : n ∉ r.map (fun o => o.name))
    (hst : lookupPS m.current_state n = some st) :
    lookupPS (processFrame m r fc fn).1.current_state n =
      (absentStep m.departed_threshold st).1 ∧
    departedCount n (processFrame m r fc fn).2 =
      (if (absentStep m.departed_threshold st).2 = true then 1 else 0) ∧
    announceCount n (processFrame m r fc fn).2 = 0 := by
  have hcnf : ((r.map (fun o => o.name)).contains n) = false := by simpa using hn
  have hk1 := @keysNodup_processDetected m.debounce_frames fn
    r m.current_state hk
  have hA := @processDetected_not_mem m.debounce_frames fn n
    r m.current_state hn
  have hdet1 : lookupPS (processDetected m.debounce_frames fn r m.current_state).1 n
      = some st := by rw [hA.1]; exact hst
  have hB := @processAbsent_absent_key m.departed_threshold fn
    (r.map (fun o => o.name)) n hcnf _ st hk1 hdet1
  refine ⟨?_, ?_, ?_⟩
  · rw [processFrame_current_state, lookupPS_filter_dns, hB.2.2, absentStep_eq]
    try dsimp only
    cases hcond : (st.departed_frames + 1 == m.departed_threshold
        && st.event_triggered) with
    | true => simp [hcond]
    | false =>
      simp only [hcond, Bool.not_false, if_true, Bool.false_eq_true, if_false]
      exact hB.1
  · rw [processFrame_departedCount, hB.2.1]
  · rw [processFrame_announceCount, hA.2]

theorem processFrame_identity_untracked {m : EventManager} {r : List Obs}
    {fc fn : Nat} {n : String}
    (hn : n ∉ r.map (fun o => o.name))
    (hst : lookupPS m.current_state n = none) :
    lookupPS (processFrame m r fc fn).1.current_state n = none ∧
    departedCount n (processFrame m r fc fn).2 = 0 ∧
    announceCount n (processFrame m r fc fn).2 = 0 := by
  have hA := @processDetected_not_mem m.debounce_frames fn n
    r m.current_state hn
  have hdet1 : lookupPS (processDetected m.debounce_frames fn r m.current_state).1 n
      = none := by rw [hA.1]; exact hst
  have hnk : n ∉ keys (processDetected m.debounce_frames fn r m.current_state).1 :=
    (lookupPS_eq_none_iff _ _).mp hdet1
  have hB := @processAbsent_not_key m.departed_threshold fn
    (r.map (fun o => o.name)) n _ hnk
  refine ⟨?_, ?_, ?_⟩
  · rw [processFrame_current_state, lookupPS_filter_dns, hB.2.2]
    simp [hB.1]
  · rw [processFrame_departedCount, hB.2.1]
  · rw [processFrame_announceCount, hA.2]

theorem processFrame_noFaces_of_isSome {m : EventManager} {r : List Obs}
    {fc fn : Nat} {n : String}
    (h : (lookupPS (processFrame m r fc fn).1.current_state n).isSome) :
    noFacesCount (processFrame m r fc fn).2 = 0 := by
  rw [processFrame_current_state] at h
  simp only [processFrame]
  split
  · rename_i hcond
    exfalso
    simp only [Bool.and_eq_true] at hcond
    have hempty := hcond.1.2
    rw [List.isEmpty_iff] at hempty
    rw [hempty] at h
    simp [lookupPS] at h
  · try dsimp only
    rw [noFacesCount_append, noFacesCount_processDetected, noFacesCount_processAbsent]

/-! ## Per-identity projection through process_recognition_results -/

theorem process_identity_present {m : EventManager} {r : List Obs}
    {f : Option Nat} {n : String} {o : Obs}
    (hk : (keys m.current_state).Nodup)
    (hnd : (r.map (fun o => o.name)).Nodup)
    (ho : o ∈ r) (hname : o.name = n) :
    lookupPS (process_recognition_results m r f).1.current_state n =
      some (presentStep m.debounce_frames o (lookupPS m.current_state n)).1 ∧
    announceCount n (process_recognition_results m r f).2 =
      (if (presentStep m.debounce_frames o (lookupPS m.current_state n)).2 = true
       then 1 else 0) ∧
    departedCount n (process_recognition_results m r f).2 = 0 := by
  cases f with
  | none => exact processFrame_identity_present hk hnd ho hname
  | some fv => exact processFrame_identity_present hk hnd ho hname

theorem process_identity_absent {m : EventManager} {r : List Obs}
    {f : Option Nat} {n : String} {st : PersonState}
    (hk : (keys m.current_state).Nodup)
    (hn : n ∉ r.map (fun o => o.name))
    (hst : lookupPS m.current_state n = some st) :
    lookupPS (process_recognition_results m r f).1.current_state n =
      (absentStep m.departed_threshold st).1 ∧
    departedCount n (process_recognition_results m r f).2 =
      (if (absentStep m.departed_threshold st).2 = true then 1 else 0) ∧
    announceCount n (process_recognition_results m r f).2 = 0 := by
  cases f with
  | none => exact processFrame_identity_absent hk hn hst
  | some fv => exact processFrame_identity_absent hk hn hst

theorem process_identity_untracked {m : EventManager} {r : List Obs}
    {f : Option Nat} {n : String}
    (hn : n ∉ r.map (fun o => o.name))
    (hst : lookupPS m.current_state n = none) :
    lookupPS (process_recognition_results m r f).1.current_state n = none ∧
    departedCount n (process_recognition_results m r f).2 = 0 ∧
    announceCount n (process_recognition_results m r f).2 = 0 := by
  cases f with
  | none => exact processFrame_identity_untracked hn hst
  | some fv => exact processFrame_identity_untracked hn hst

theorem process_noFaces_of_isSome {m : EventManager} {r : List Obs}
    {f : Option Nat} {n : String}
    (h : (lookupPS (process_recognition_results m r f).1.current_state n).isSome) :
    noFacesCount (process_recognition_results m r f).2 = 0 := by
  cases f with
  | none => exact processFrame_noFaces_of_isSome (n := n) h
  | some fv => exact processFrame_noFaces_of_isSome (n := n) h

theorem process_fields (m : EventManager) (r : List Obs) (f : Option Nat) :
    (process_recognition_results m r f).1.debounce_frames = m.debounce_frames ∧
    (process_recognition_results m r f).1.departed_threshold =
      m.departed_threshold := by
  cases f with
  | none => exact processFrame_fields m r _ _
  | some fv => exact processFrame_fields m r _ _

theorem keysNodup_process {m : EventManager} {r : List Obs} {f : Option Nat}
    (hk : (keys m.current_state).Nodup) :
    (keys (process_recognition_results m r f).1.current_state).Nodup := by
  cases f with
  | none => exact keysNodup_processFrame m r _ _ hk
  | some fv => exact keysNodup_processFrame m r _ _ hk

/-! ## Run-level per-identity lemmas -/

theorem presentStep_some_eq (d : Nat) (o : Obs) (st : PersonState) :
    presentStep d o (some st) =
      (if (st.consecutive_frames + 1 == d && !st.event_triggered) = true then
        { st with consecutive_frames := st.consecutive_frames + 1
                  departed_frames := 0
                  last_confidence := o.confidence
                  last_bbox := some o.bbox
                  event_triggered := true }
       else
        { st with consecutive_frames := st.consecutive_frames + 1
                  departed_frames := 0
                  last_confidence := o.confidence
                  last_bbox := some o.bbox },
       (st.consecutive_frames + 1 == d && !st.event_triggered)) := by
  unfold presentStep
  by_cases h : (st.consecutive_frames + 1 == d && !st.event_triggered) = true
  · simp [h]
  · simp [h]

theorem runCycles_untracked {n : String} :
    ∀ (cycles : List Cycle) (m : EventManager),
    (∀ c ∈ cycles, n ∉ c.1.map (fun o => o.name)) →
    lookupPS m.current_state n = none →
    lookupPS (runCycles m cycles).1.current_state n = none ∧
    announceCount n (runCycles m cycles).2 = 0 ∧
    departedCount n (runCycles m cycles).2 = 0
  | [], m, _, hst => by
    simp [runCycles, hst, announceCount_nil, departedCount_nil]
  | c :: rest, m, hcy, hst => by
    have hc := hcy c (List.mem_cons_self _ _)
    have hstep := process_identity_untracked (m := m) (r := c.1) (f := c.2) hc hst
    have ih := runCycles_untracked rest (process_recognition_results m c.1 c.2).1
      (fun c' hc' => hcy c' (List.mem_cons_of_mem _ hc')) hstep.1
    simp only [runCycles]
    try dsimp only
    refine ⟨ih.1, ?_, ?_⟩
    · rw [announceCount_append, hstep.2.2, ih.2.1]
    · rw [departedCount_append, hstep.2.1, ih.2.2]

theorem runCycles_absent_untriggered {n : String} :
    ∀ (cycles : List Cycle) (m : EventManager) (st : PersonState),
    (keys m.current_state).Nodup →
    (∀ c ∈ cycles, n ∉ c.1.map (fun o => o.name)) →
    lookupPS m.current_state n = some st →
    st.event_triggered = false →
    (∃ st', lookupPS (runCycles m cycles).1.current_state n = some st' ∧
      st'.departed_frames = st.departed_frames + cycles.length ∧
      st'.event_triggered = false) ∧
    announceCount n (runCycles m cycles).2 = 0 ∧
    departedCount n (runCycles m cycles).2 = 0 ∧
    noFacesCount (runCycles m cycles).2 = 0
  | [], m, st, _, _, hst, htrig => by
    refine ⟨⟨st, by simpa [runCycles] using hst, by simp [runCycles], htrig⟩, ?_, ?_, ?_⟩
      <;> simp [runCycles, announceCount_nil, departedCount_nil, noFacesCount_nil]
  | c :: rest, m, st, hk, hcy, hst, htrig => by
    have hc := hcy c (List.mem_cons_self _ _)
    have hstep := process_identity_absent (m := m) (r := c.1) (f := c.2) hk hc hst
    have hcond : (st.departed_frames + 1 == m.departed_threshold
        && st.event_triggered) = false := by
      rw [htrig]
      simp
    rw [absentStep_eq] at hstep
    simp only [hcond, Bool.false_eq_true, if_false] at hstep
    try dsimp only at hstep
    have hnf := process_noFaces_of_isSome (n := n)
      (by rw [hstep.1]; rfl)
    have ih := runCycles_absent_untriggered rest
      (process_recognition_results m c.1 c.2).1
      { st with departed_frames := st.departed_frames + 1, consecutive_frames := 0 }
      (keysNodup_process hk)
      (fun c' hc' => hcy c' (List.mem_cons_of_mem _ hc'))
      hstep.1 (by simpa using htrig)
    simp only [runCycles]
    try dsimp only
    obtain ⟨⟨st', hst', hdep', htrig'⟩, ihann, ihdep, ihnf⟩ := ih
    refine ⟨⟨st', hst', ?_, htrig'⟩, ?_, ?_, ?_⟩
    · simp only [List.length_cons] at hdep' ⊢
      try dsimp only at hdep'
      omega
    · rw [announceCount_append, hstep.2.2, ihann]
    · rw [departedCount_append, hstep.2.1, ihdep]
    · rw [noFacesCount_append, hnf, ihnf]

theorem runCycles_absent_triggered {n : String} :
    ∀ (cycles : List Cycle) (m : EventManager) (st : PersonState),
    (keys m.current_state).Nodup →
    (∀ c ∈ cycles, n ∉ c.1.map (fun o => o.name)) →
    lookupPS m.current_state n = some st →
    st.event_triggered = true →
    st.departed_frames < m.departed_threshold →
    departedCount n (runCycles m cycles).2 =
      (if m.departed_threshold ≤ st.departed_frames + cycles.length then 1 else 0) ∧
    announceCount n (runCycles m cycles).2 = 0 ∧
    (if m.departed_threshold ≤ st.departed_frames + cycles.length then
      lookupPS (runCycles m cycles).1.current_state n = none
     else
      ∃ st', lookupPS (runCycles m cycles).1.current_state n = some st' ∧
        st'.departed_frames = st.departed_frames + cycles.length ∧
        st'.event_triggered = true)
  | [], m, st, _, _, hst, htrig, hlt => by
    simp only [runCycles, List.length_nil, Nat.add_zero]
    try dsimp only
    refine ⟨?_, rfl, ?_⟩
    · rw [if_neg (by omega)]
      rfl
    · rw [if_neg (by omega)]
      exact ⟨st, hst, by omega, htrig⟩
  | c :: rest, m, st, hk, hcy, hst, htrig, hlt => by
    have hc := hcy c (List.mem_cons_self _ _)
    have hstep := process_identity_absent (m := m) (r := c.1) (f := c.2) hk hc hst
    rw [absentStep_eq] at hstep
    try dsimp only at hstep
    simp only [htrig, Bool.and_true] at hstep
    by_cases heq : st.departed_frames + 1 = m.departed_threshold
    · have hbeq : (st.departed_frames + 1 == m.departed_threshold) = true := by
        simpa using heq
      simp only [hbeq, if_true] at hstep
      have ihun := runCycles_untracked rest (process_recognition_results m c.1 c.2).1
        (fun c' hc' => hcy c' (List.mem_cons_of_mem _ hc')) hstep.1
      simp only [runCycles]
      try dsimp only
      refine ⟨?_, ?_, ?_⟩
      · rw [departedCount_append, hstep.2.1, ihun.2.2,
          if_pos (by simp only [List.length_cons]; omega)]
      · rw [announceCount_append, hstep.2.2, ihun.2.1]
      · rw [if_pos (by simp only [List.length_cons]; omega)]
        exact ihun.1
    · have hbeq : (st.departed_frames + 1 == m.departed_threshold) = false := by
        simpa using heq
      simp only [hbeq, Bool.false_eq_true, if_false] at hstep
      have hfld := (process_fields m c.1 c.2).2
      have ih := runCycles_absent_triggered rest
        (process_recognition_results m c.1 c.2).1
        { st with departed_frames := st.departed_frames + 1, consecutive_frames := 0,
                  event_triggered := true }
        (keysNodup_process hk)
        (fun c' hc' => hcy c' (List.mem_cons_of_mem _ hc'))
        hstep.1 (by rfl)
        (by rw [hfld]; try dsimp only; omega)
      rw [hfld] at ih
      try dsimp only at ih
      simp only [runCycles]
      try dsimp only
      refine ⟨?_, ?_, ?_⟩
      · rw [departedCount_append, hstep.2.1, ih.1]
        simp only [List.length_cons]
        have harith : st.departed_frames + 1 + rest.length =
            st.departed_frames + (rest.length + 1) := by omega
        rw [harith]
        simp
      · rw [announceCount_append, hstep.2.2, ih.2.1]
      · simp only [List.length_cons]
        by_cases hc2 : m.departed_threshold ≤ st.departed_frames + 1 + rest.length
        · rw [if_pos (by omega)]
          have ih3 := ih.2.2
          rw [if_pos hc2] at ih3
          exact ih3
        · rw [if_neg (by omega)]
          have ih3 := ih.2.2
          rw [if_neg hc2] at ih3
          obtain ⟨st', h1, h2, h3⟩ := ih3
          exact ⟨st', h1, by omega, h3⟩

theorem runCycles_present {n : String} :
    ∀ (cycles : List Cycle) (m : EventManager) (st : PersonState),
    (keys m.current_state).Nodup →
    (∀ c ∈ cycles, (c.1.map (fun o => o.name)).Nodup ∧
        n ∈ c.1.map (fun o => o.name)) →
    lookupPS m.current_state n = some st →
    (∃ st', lookupPS (runCycles m cycles).1.current_state n = some st' ∧
      st'.consecutive_frames = st.consecutive_frames + cycles.length ∧
      (st'.event_triggered = true ↔ (st.event_triggered = true ∨
        (st.consecutive_frames < m.debounce_frames ∧
         m.debounce_frames ≤ st.consecutive_frames + cycles.length)))) ∧
    announceCount n (runCycles m cycles).2 =
      (if st.event_triggered = false ∧
          st.consecutive_frames < m.debounce_frames ∧
          m.debounce_frames ≤ st.consecutive_frames + cycles.length
       then 1 else 0)
  | [], m, st, _, _, hst => by
    simp only [runCycles, List.length_nil, Nat.add_zero]
    try dsimp only
    constructor
    · refine ⟨st, hst, rfl, ?_⟩
      constructor
      · exact fun h => Or.inl h
      · rintro (h | ⟨h1, h2⟩)
        · exact h
        · omega
    · rw [if_neg]
      · rfl
      · rintro ⟨_, h1, h2⟩
        omega
  | c :: rest, m, st, hk, hcy, hst => by
    obtain ⟨hnd, hmem⟩ := hcy c (List.mem_cons_self _ _)
    obtain ⟨o, ho, hname⟩ := List.mem_map.mp hmem
    have hstep := process_identity_present (m := m) (f := c.2) hk hnd ho hname
    rw [hst, presentStep_some_eq] at hstep
    try dsimp only at hstep
    have hcy' := fun c' hc' => hcy c' (List.mem_cons_of_mem _ hc')
    have hfld := (process_fields m c.1 c.2).1
    by_cases ht : st.event_triggered = true
    · have htr : (st.consecutive_frames + 1 == m.debounce_frames
          && !st.event_triggered) = false := by
        rw [ht]
        simp
      simp only [htr, Bool.false_eq_true, if_false] at hstep
      have ih := runCycles_present rest (process_recognition_results m c.1 c.2).1
        { st with consecutive_frames := st.consecutive_frames + 1,
                  departed_frames := 0, last_confidence := o.confidence,
                  last_bbox := some o.bbox }
        (keysNodup_process hk) hcy' hstep.1
      rw [hfld] at ih
      try dsimp only at ih
      obtain ⟨⟨st', hl', hcons', hiff'⟩, hcnt'⟩ := ih
      simp only [runCycles]
      try dsimp only
      constructor
      · refine ⟨st', hl', ?_, ?_⟩
        · simp only [List.length_cons]
          omega
        · have htt : st'.event_triggered = true := hiff'.mpr (Or.inl ht)
          exact ⟨fun _ => Or.inl ht, fun _ => htt⟩
      · rw [announceCount_append, hstep.2.1, hcnt']
        rw [if_neg (by simp [ht]), if_neg (by simp [ht])]
    · have ht' : st.event_triggered = false := by simpa using ht
      by_cases heq : st.consecutive_frames + 1 = m.debounce_frames
      · have htr : (st.consecutive_frames + 1 == m.debounce_frames
            && !st.event_triggered) = true := by
          rw [ht']
          simp [heq]
        simp only [htr, if_true] at hstep
        have ih := runCycles_present rest (process_recognition_results m c.1 c.2).1
          { st with consecutive_frames := st.consecutive_frames + 1,
                    departed_frames := 0, last_confidence := o.confidence,
                    last_bbox := some o.bbox, event_triggered := true }
          (keysNodup_process hk) hcy' hstep.1
        rw [hfld] at ih
        try dsimp only at ih
        obtain ⟨⟨st', hl', hcons', hiff'⟩, hcnt'⟩ := ih
        simp only [runCycles]
        try dsimp only
        constructor
        · refine ⟨st', hl', ?_, ?_⟩
          · simp only [List.length_cons]
            omega
          · have htt : st'.event_triggered = true := hiff'.mpr (Or.inl rfl)
            refine ⟨fun _ => Or.inr ⟨by omega, by simp only [List.length_cons]; omega⟩,
              fun _ => htt⟩
        · rw [announceCount_append, hstep.2.1, hcnt']
          rw [if_neg (by rintro ⟨h, _⟩; simp at h)]
          rw [if_pos ⟨ht', by omega, by simp only [List.length_cons]; omega⟩]
      · have htr : (st.consecutive_frames + 1 == m.debounce_frames
            && !st.event_triggered) = false := by
          simp [heq]
        simp only [htr, Bool.false_eq_true, if_false] at hstep
        have ih := runCycles_present rest (process_recognition_results m c.1 c.2).1
          { st with consecutive_frames := st.consecutive_frames + 1,
                    departed_frames := 0, last_confidence := o.confidence,
                    last_bbox := some o.bbox }
          (keysNodup_process hk) hcy' hstep.1
        rw [hfld] at ih
        try dsimp only at ih
        obtain ⟨⟨st', hl', hcons', hiff'⟩, hcnt'⟩ := ih
        simp only [runCycles]
        try dsimp only
        constructor
        · refine ⟨st', hl', ?_, ?_⟩
          · simp only [List.length_cons]
            omega
          · rw [ht'] at hiff' ⊢
            simp only [List.length_cons]
            constructor
            · intro h
              rcases hiff'.mp h with h2 | ⟨h3, h4⟩
              · simp at h2
              · exact Or.inr ⟨by omega, by omega⟩
            · rintro (h | ⟨h3, h4⟩)
              · simp at h
              · exact hiff'.mpr (Or.inr ⟨by omega, by omega⟩)
        · rw [announceCount_append, hstep.2.1, hcnt']
          simp only [List.length_cons, ht']
          by_cases hcnd : st.consecutive_frames + 1 < m.debounce_frames ∧
              m.debounce_frames ≤ st.consecutive_frames + 1 + rest.length
          · rw [if_pos ⟨by trivial, hcnd.1, hcnd.2⟩, if_pos ⟨by trivial, by omega, by omega⟩]
          · rw [if_neg (by rintro ⟨_, h2, h3⟩; exact hcnd ⟨h2, h3⟩),
              if_neg (by rintro ⟨_, h2, h3⟩; exact hcnd ⟨by omega, by omega⟩)]

/-! ## Counter invariant preservation -/

theorem mem_updateAssoc {p : String × PersonState}
    {cs : List (String × PersonState)} {k : String} {v : PersonState}
    (h : p ∈ updateAssoc cs k v) : p = (k, v) ∨ p ∈ cs := by
  unfold updateAssoc at h
  rcases List.mem_map.mp h with ⟨q, hq, he⟩
  by_cases hk : (q.1 == k) = true
  · left
    rw [← he]
    simp [hk]
  · right
    rw [← he]
    simp only [hk, Bool.false_eq_true, if_false]
    exact hq

theorem counterInv_processDetected {d fn : Nat} :
    ∀ (r : List Obs) (cs : List (String × PersonState)),
    (∀ p ∈ cs, counterInv p.2) →
    ∀ p ∈ (processDetected d fn r cs).1, counterInv p.2
  | [], cs, h => h
  | o :: rest, cs, h => by
    cases hcs : lookupPS cs o.name with
    | some st =>
      simp only [processDetected, hcs]
      apply counterInv_processDetected rest
      intro p hp
      rcases mem_updateAssoc hp with he | hin
      · subst he
        split <;> simp [counterInv]
      · exact h p hin
    | none =>
      simp only [processDetected, hcs]
      apply counterInv_processDetected rest
      intro p hp
      rcases List.mem_append.mp hp with hin | hnew
      · exact h p hin
      · simp only [List.mem_singleton] at hnew
        subst hnew
        simp [counterInv]

theorem counterInv_processAbsent {dep fn : Nat} {cn : List String} :
    ∀ cs : List (String × PersonState),
    (∀ p ∈ cs, counterInv p.2) →
    ∀ p ∈ (processAbsent dep fn cn cs).1, counterInv p.2
  | [], _, p, hp => by simp [processAbsent] at hp
  | (nm, st) :: rest, h, p, hp => by
    have hrest := @counterInv_processAbsent dep fn cn rest
      (fun q hq => h q (List.mem_cons_of_mem _ hq))
    revert hp
    cases hc : cn.contains nm with
    | true =>
      simp only [processAbsent, hc, if_true]
      try dsimp only
      intro hp
      rcases List.mem_cons.mp hp with he | hin
      · subst he
        exact h (nm, st) (List.mem_cons_self _ _)
      · exact hrest p hin
    | false =>
      simp only [processAbsent, hc, Bool.false_eq_true, if_false]
      split
      · try dsimp only
        intro hp
        rcases List.mem_cons.mp hp with he | hin
        · subst he
          simp [counterInv]
        · exact hrest p hin
      · try dsimp only
        intro hp
        rcases List.mem_cons.mp hp with he | hin
        · subst he
          simp [counterInv]
        · exact hrest p hin

theorem counterInv_processFrame (m : EventManager) (r : List Obs) (fc fn : Nat)
    (h : ∀ p ∈ m.current_state, counterInv p.2) :
    ∀ p ∈ (processFrame m r fc fn).1.current_state, counterInv p.2 := by
  rw [processFrame_current_state]
  intro p hp
  exact counterInv_processAbsent _
    (counterInv_processDetected r _ h) p (List.mem_of_mem_filter hp)

theorem counterInv_process (m : EventManager) (r : List Obs) (f : Option Nat)
    (h : ∀ p ∈ m.current_state, counterInv p.2) :
    ∀ p ∈ (process_recognition_results m r f).1.current_state, counterInv p.2 := by
  cases f with
  | none => exact counterInv_processFrame m r _ _ h
  | some fv => exact counterInv_processFrame m r _ _ h

theorem counterInv_runCycles :
    ∀ (cycles : List Cycle) (m : EventManager),
    (∀ p ∈ m.current_state, counterInv p.2) →
    ∀ p ∈ (runCycles m cycles).1.current_state, counterInv p.2
  | [], _, h => h
  | c :: rest, m, h => by
    simp only [runCycles]
    try dsimp only
    exact counterInv_runCycles rest _ (counterInv_process m c.1 c.2 h)

theorem keysNodup_runCycles :
    ∀ (cycles : List Cycle) (m : EventManager),
    (keys m.current_state).Nodup →
    (keys (runCycles m cycles).1.current_state).Nodup
  | [], _, hk => hk
  | c :: rest, m, hk => by
    simp only [runCycles]
    try dsimp only
    exact keysNodup_runCycles rest _ (keysNodup_process hk)

/-! ## Claim theorems -/

/-- C1: for every call to the scheduler's run entry point
(`execute_behavior`): with no active behavior it returns True and starts the
new behavior; with an active non-interruptible behavior it returns False
regardless of the incoming priority; with an active interruptible behavior
it returns True exactly when the incoming priority is strictly greater, and
every False return leaves the whole manager (in particular the active
behavior) unchanged. -/
theorem c1_scheduler_preemption_rule (m : BehaviorManager) (b : Behavior) :
    (m.current_behavior = none →
      (execute_behavior m b).2 = true ∧
      (execute_behavior m b).1.current_behavior = some b) ∧
    (∀ cur, m.current_behavior = some cur → cur.interruptible = false →
      (execute_behavior m b).2 = false ∧ (execute_behavior m b).1 = m) ∧
    (∀ cur, m.current_behavior = some cur → cur.interruptible = true →
      ((execute_behavior m b).2 = true ↔ cur.priority < b.priority) ∧
      ((execute_behavior m b).2 = false → (execute_behavior m b).1 = m)) := by
  refine ⟨?_, ?_, ?_⟩
  · intro h
    simp [execute_behavior, h]
  · intro cur hc hi
    simp [execute_behavior, hc, hi]
  · intro cur hc hi
    simp only [execute_behavior, hc, hi, Bool.not_true, Bool.false_eq_true, if_false]
    by_cases hp : b.priority ≤ cur.priority
    · simp only [hp, if_true]
      constructor
      · constructor
        · intro h
          simp at h
        · intro h
          omega
      · intro _
        trivial
    · simp only [hp, if_false]
      constructor
      · constructor
        · intro _
          omega
        · intro _
          trivial
      · intro h
        simp at h

/-- Witness for C1 at Scenario C's configuration: an active interruptible
behavior of priority 2 against an incoming priority-5 request. -/
theorem c1_scheduler_preemption_rule_witness :
    ((execute_behavior ⟨some ⟨"idle", [], true, 2⟩, 0, 0⟩
        ⟨"wave", [], true, 5⟩).2 = true ↔ (2:Int) < 5) ∧
    ((execute_behavior ⟨some ⟨"idle", [], true, 2⟩, 0, 0⟩
        ⟨"wave", [], true, 5⟩).2 = false →
      (execute_behavior ⟨some ⟨"idle", [], true, 2⟩, 0, 0⟩
        ⟨"wave", [], true, 5⟩).1 = ⟨some ⟨"idle", [], true, 2⟩, 0, 0⟩) :=
  (c1_scheduler_preemption_rule ⟨some ⟨"idle", [], true, 2⟩, 0, 0⟩
    ⟨"wave", [], true, 5⟩).2.2 ⟨"idle", [], true, 2⟩ rfl rfl

/-- C5: after every submission sequence starting from a freshly initialized
tracker, every tracked `PersonState` satisfies
`consecutive_frames > 0 ↔ departed_frames = 0`. -/
theorem c5_counter_invariant (debounce departed : Nat) (cycles : List Cycle)
    (n : String) (st : PersonState)
    (h : lookupPS (runCycles (initManager debounce departed)
        cycles).1.current_state n = some st) :
    0 < st.consecutive_frames ↔ st.departed_frames = 0 := by
  have hmem := lookupPS_mem h
  exact counterInv_runCycles cycles (initManager debounce departed)
    (by intro p hp; simp [initManager] at hp) (n, st) hmem

/-- Witness for C5: one cycle of Alice on a fresh tracker. -/
theorem c5_counter_invariant_witness :
    0 < ({ name := "Alice", consecutive_frames := 1, departed_frames := 0,
           last_confidence := 1, last_bbox := some ((0:Int), 0, 0, 0),
           event_triggered := false } : PersonState).consecutive_frames ↔
    ({ name := "Alice", consecutive_frames := 1, departed_frames := 0,
       last_confidence := 1, last_bbox := some ((0:Int), 0, 0, 0),
       event_triggered := false } : PersonState).departed_frames = 0 :=
  c5_counter_invariant 3 3 [([⟨"Alice", 1, (0, 0, 0, 0)⟩], some 1)] "Alice"
    { name := "Alice", consecutive_frames := 1, departed_frames := 0,
      last_confidence := 1, last_bbox := some ((0:Int), 0, 0, 0),
      event_triggered := false }
    (by decide)

/-- C6: a RECOGNIZED event for a subject already in the greeted set is
discarded: the coordinator makes zero scheduler calls and zero
speech-backend calls and its entire state (greeted set, pending queue,
counters, latency samples) is unchanged. -/
theorem c6_repeat_recognized_noop (env : SpeechEnv) (s : GreetingCoordinator)
    (ev : RecognitionEvent)
    (h : s.greeted_persons.contains ev.person_name = true) :
    on_person_recognized env s ev = (s, []) := by
  unfold on_person_recognized
  rw [if_pos h]

/-- Witness for C6: Alice already greeted; the repeat event is a no-op. -/
theorem c6_repeat_recognized_noop_witness :
    on_person_recognized (fun _ => false)
      { greeted_persons := ["Alice"] }
      ⟨EventType.person_recognized, "Alice", 1, none, 1⟩ =
    ({ greeted_persons := ["Alice"] }, []) :=
  c6_repeat_recognized_noop (fun _ => false) { greeted_persons := ["Alice"] }
    ⟨EventType.person_recognized, "Alice", 1, none, 1⟩ (by decide)

/-- C9: `reset_session` clears exactly the greeted set and the pending
queue; the in-progress flag, greeting counter, latency samples,
gesture-speech delay, and voice-system configuration are all unchanged
(callbacks are registered with the event manager, which `reset_session`
does not touch; an in-flight response sequence is likewise untouched since
the in-progress flag is preserved). -/
theorem c9_reset_session_frame (s : GreetingCoordinator) :
    reset_session s = { s with greeted_persons := [], pending_greetings := [] } ∧
    (reset_session s).greeted_persons = [] ∧
    (reset_session s).pending_greetings = [] ∧
    (reset_session s).greeting_in_progress = s.greeting_in_progress ∧
    (reset_session s).total_greetings = s.total_greetings ∧
    (reset_session s).latencies = s.latencies ∧
    (reset_session s).gesture_speech_delay = s.gesture_speech_delay ∧
    (reset_session s).use_enhanced_voice = s.use_enhanced_voice ∧
    (reset_session s).has_legacy_tts = s.has_legacy_tts :=
  ⟨rfl, rfl, rfl, rfl, rfl, rfl, rfl, rfl, rfl⟩

/-- C2 counterexample: with debounce threshold 1 (a legal threshold ≥ 1),
Alice's consecutive-presence counter reaches the threshold on her very
first cycle and the run lasts two further cycles, yet no announce event is
ever emitted — the first-appearance path never performs the debounce
check.  This refutes the claim as stated for threshold 1. -/
theorem c2_counterexample :
    (initManager 1 3).debounce_frames = 1 ∧
    (lookupPS (runCycles (initManager 1 3)
        [([⟨"Alice", 1, (0, 0, 0, 0)⟩], some 1),
         ([⟨"Alice", 1, (0, 0, 0, 0)⟩], some 2),
         ([⟨"Alice", 1, (0, 0, 0, 0)⟩], some 3)]).1.current_state "Alice").map
      (fun st => st.consecutive_frames) = some 3 ∧
    announceCount "Alice" (runCycles (initManager 1 3)
        [([⟨"Alice", 1, (0, 0, 0, 0)⟩], some 1),
         ([⟨"Alice", 1, (0, 0, 0, 0)⟩], some 2),
         ([⟨"Alice", 1, (0, 0, 0, 0)⟩], some 3)]).2 = 0 := by
  decide

/-- C2 (amended): over every continuous presence run, (1) for debounce
thresholds ≥ 2 and an identity not yet tracked, the announce event fires
exactly once, on the cycle on which `consecutive_present` reaches the
threshold (never if the run is shorter); with threshold 1 the initial run
never announces (see the counterexample); and (2) an identity whose
announce already fired (`event_triggered` true, as after a brief absence
shorter than the departure threshold) is never announced again during a
presence run — the announce fires at most once per tracked-state lifetime,
not once per run. -/
theorem c2_amended_announce_once :
    (∀ (m : EventManager) (n : String) (cycles : List Cycle),
      (keys m.current_state).Nodup →
      2 ≤ m.debounce_frames →
      lookupPS m.current_state n = none →
      (∀ c ∈ cycles, (c.1.map (fun o => o.name)).Nodup ∧
          n ∈ c.1.map (fun o => o.name)) →
      announceCount n (runCycles m cycles).2 =
        (if m.debounce_frames ≤ cycles.length then 1 else 0)) ∧
    (∀ (m : EventManager) (n : String) (st : PersonState) (cycles : List Cycle),
      (keys m.current_state).Nodup →
      lookupPS m.current_state n = some st →
      st.event_triggered = true →
      (∀ c ∈ cycles, (c.1.map (fun o => o.name)).Nodup ∧
          n ∈ c.1.map (fun o => o.name)) →
      announceCount n (runCycles m cycles).2 = 0) := by
  constructor
  · intro m n cycles hk hdb hfresh hcy
    cases cycles with
    | nil =>
      rw [if_neg (by simp only [List.length_nil]; omega)]
      rfl
    | cons c rest =>
      obtain ⟨hnd, hmem⟩ := hcy c (List.mem_cons_self _ _)
      obtain ⟨o, ho, hname⟩ := List.mem_map.mp hmem
      have hstep := process_identity_present (m := m) (f := c.2) hk hnd ho hname
      rw [hfresh] at hstep
      simp only [presentStep] at hstep
      have hfld := (process_fields m c.1 c.2).1
      have ih := runCycles_present rest (process_recognition_results m c.1 c.2).1
        { name := o.name, consecutive_frames := 1,
          last_confidence := o.confidence, last_bbox := some o.bbox }
        (keysNodup_process hk)
        (fun c' hc' => hcy c' (List.mem_cons_of_mem _ hc'))
        hstep.1
      rw [hfld] at ih
      try dsimp only at ih
      simp only [runCycles]
      try dsimp only
      have hstep2 := hstep.2.1
      simp at hstep2
      have ih2 := ih.2
      simp only [eq_self_iff_true, true_and] at ih2
      rw [announceCount_append, hstep2, ih2]
      simp only [List.length_cons, Nat.zero_add]
      by_cases hcnd : m.debounce_frames ≤ rest.length + 1
      · rw [if_pos ⟨by omega, by omega⟩, if_pos hcnd]
      · rw [if_neg (by rintro ⟨h2, h3⟩; omega), if_neg hcnd]
  · intro m n st cycles hk hst htrig hcy
    have h := (runCycles_present cycles m st hk hcy hst).2
    rw [h, if_neg (by rintro ⟨h1, _⟩; rw [htrig] at h1; simp at h1)]

/-- Witness for the amended C2: part (1) at debounce threshold 2, a fresh
tracker and a two-cycle Alice run (announce fires exactly once); part (2)
at an already-announced Alice state. -/
theorem c2_amended_announce_once_witness :
    announceCount "Alice" (runCycles (initManager 2 3)
        [([⟨"Alice", 1, (0, 0, 0, 0)⟩], some 1),
         ([⟨"Alice", 1, (0, 0, 0, 0)⟩], some 2)]).2 =
      (if (initManager 2 3).debounce_frames ≤
          ([([(⟨"Alice", 1, (0, 0, 0, 0)⟩ : Obs)], some 1),
            ([⟨"Alice", 1, (0, 0, 0, 0)⟩], some 2)] : List Cycle).length
       then 1 else 0) ∧
    announceCount "Alice" (runCycles
        (runCycles (initManager 2 3)
          [([⟨"Alice", 1, (0, 0, 0, 0)⟩], some 1),
           ([⟨"Alice", 1, (0, 0, 0, 0)⟩], some 2)]).1
        [([⟨"Alice", 1, (0, 0, 0, 0)⟩], some 3)]).2 = 0 :=
  ⟨c2_amended_announce_once.1 (initManager 2 3) "Alice"
      [([⟨"Alice", 1, (0, 0, 0, 0)⟩], some 1),
       ([⟨"Alice", 1, (0, 0, 0, 0)⟩], some 2)]
      (by decide) (by decide) (by decide) (by decide),
   c2_amended_announce_once.2
      (runCycles (initManager 2 3)
        [([⟨"Alice", 1, (0, 0, 0, 0)⟩], some 1),
         ([⟨"Alice", 1, (0, 0, 0, 0)⟩], some 2)]).1
      "Alice"
      { name := "Alice", consecutive_frames := 2, departed_frames := 0,
        last_confidence := 1, last_bbox := some ((0:Int), 0, 0, 0),
        event_triggered := true }
      [([⟨"Alice", 1, (0, 0, 0, 0)⟩], some 3)]
      (by decide) (by decide) (by decide) (by decide)⟩

/-- C4 counterexample: submitting the batch `[Alice]` with cycle number 1
and then re-submitting the identical batch with the same cycle number 1
advances Alice's `consecutive_frames` from 1 to 2 — and, at debounce
threshold 2, even fires her RECOGNIZED event — so the second submission
double-counts toward the threshold, refuting the claim. -/
theorem c4_counterexample :
    (lookupPS (process_recognition_results (initManager 2 3)
        [⟨"Alice", 1, (0, 0, 0, 0)⟩] (some 1)).1.current_state "Alice").map
      (fun st => st.consecutive_frames) = some 1 ∧
    (lookupPS (process_recognition_results
        (process_recognition_results (initManager 2 3)
          [⟨"Alice", 1, (0, 0, 0, 0)⟩] (some 1)).1
        [⟨"Alice", 1, (0, 0, 0, 0)⟩] (some 1)).1.current_state "Alice").map
      (fun st => st.consecutive_frames) = some 2 ∧
    announceCount "Alice" (process_recognition_results
        (process_recognition_results (initManager 2 3)
          [⟨"Alice", 1, (0, 0, 0, 0)⟩] (some 1)).1
        [⟨"Alice", 1, (0, 0, 0, 0)⟩] (some 1)).2 = 1 := by
  decide

/-- C4 (amended): the tracker ignores the supplied cycle number when
counting — re-submitting the same batch with the same explicit cycle
number advances each tracked present identity's `consecutive_frames` by
one more, exactly as a new cycle would; monotonically increasing cycle
numbers are a caller obligation that the tracker does not check. -/
theorem c4_amended_resubmission_double_counts (m : EventManager)
    (r : List Obs) (f : Nat) (n : String) (o : Obs) (st1 : PersonState)
    (hk : (keys m.current_state).Nodup)
    (hnd : (r.map (fun o2 => o2.name)).Nodup)
    (ho : o ∈ r) (hname : o.name = n)
    (h1 : lookupPS (process_recognition_results m r (some f)).1.current_state n
        = some st1) :
    ∃ st2, lookupPS (process_recognition_results
        (process_recognition_results m r (some f)).1 r
        (some f)).1.current_state n = some st2 ∧
      st2.consecutive_frames = st1.consecutive_frames + 1 := by
  have hk1 := keysNodup_process (m := m) (r := r) (f := some f) hk
  have hstep := process_identity_present
    (m := (process_recognition_results m r (some f)).1) (f := some f)
    hk1 hnd ho hname
  rw [h1, presentStep_some_eq] at hstep
  try dsimp only at hstep
  cases htr : (st1.consecutive_frames + 1 ==
      (process_recognition_results m r (some f)).1.debounce_frames
      && !st1.event_triggered) with
  | true =>
    simp only [htr, if_true] at hstep
    exact ⟨_, hstep.1, rfl⟩
  | false =>
    simp only [htr, Bool.false_eq_true, if_false] at hstep
    exact ⟨_, hstep.1, rfl⟩

/-- Witness for the amended C4 at a concrete double submission of the same
cycle number. -/
theorem c4_amended_resubmission_double_counts_witness :
    ∃ st2, lookupPS (process_recognition_results
        (process_recognition_results (initManager 3 3)
          [⟨"Alice", 1, (0, 0, 0, 0)⟩] (some 1)).1
        [⟨"Alice", 1, (0, 0, 0, 0)⟩] (some 1)).1.current_state "Alice"
      = some st2 ∧
      st2.consecutive_frames =
        ({ name := "Alice", consecutive_frames := 1, departed_frames := 0,
           last_confidence := 1, last_bbox := some ((0:Int), 0, 0, 0),
           event_triggered := false } : PersonState).consecutive_frames + 1 :=
  c4_amended_resubmission_double_counts (initManager 3 3)
    [⟨"Alice", 1, (0, 0, 0, 0)⟩] 1 "Alice" ⟨"Alice", 1, (0, 0, 0, 0)⟩
    { name := "Alice", consecutive_frames := 1, departed_frames := 0,
      last_confidence := 1, last_bbox := some ((0:Int), 0, 0, 0),
      event_triggered := false }
    (by decide) (by decide) (by decide) (by decide) (by decide)

/-- C8: for an identity whose announce event has fired (`event_triggered`
true) and whose absence counter is at zero, a run of consecutive absent
cycles produces exactly one DEPARTED event — emitted exactly when the run
reaches the departure threshold — and removes the state from tracking; a
subsequent re-appearance creates a fresh state whose presence counter
restarts (first cycle sets it to 1 with the announce flag cleared), so
debouncing begins anew. -/
theorem c8_departed_exactly_once (m : EventManager) (n : String)
    (st : PersonState) (cycles : List Cycle)
    (hk : (keys m.current_state).Nodup)
    (hst : lookupPS m.current_state n = some st)
    (htrig : st.event_triggered = true)
    (hdep0 : st.departed_frames = 0)
    (hpos : 1 ≤ m.departed_threshold)
    (habs : ∀ c ∈ cycles, n ∉ c.1.map (fun o => o.name)) :
    departedCount n (runCycles m cycles).2 =
      (if m.departed_threshold ≤ cycles.length then 1 else 0) ∧
    (m.departed_threshold ≤ cycles.length →
      lookupPS (runCycles m cycles).1.current_state n = none) ∧
    (∀ (c : Cycle) (o : Obs), m.departed_threshold ≤ cycles.length →
      (c.1.map (fun o2 => o2.name)).Nodup → o ∈ c.1 → o.name = n →
      ∃ stf, lookupPS (process_recognition_results
          (runCycles m cycles).1 c.1 c.2).1.current_state n = some stf ∧
        stf.consecutive_frames = 1 ∧ stf.event_triggered = false) := by
  have hlt : st.departed_frames < m.departed_threshold := by omega
  have hmain := runCycles_absent_triggered cycles m st hk habs hst htrig hlt
  rw [hdep0] at hmain
  simp only [Nat.zero_add] at hmain
  refine ⟨hmain.1, ?_, ?_⟩
  · intro hle
    have h3 := hmain.2.2
    rw [if_pos hle] at h3
    exact h3
  · intro c o hle hnd ho hname
    have h3 := hmain.2.2
    rw [if_pos hle] at h3
    have hk' := keysNodup_runCycles cycles m hk
    have hstep := process_identity_present (m := (runCycles m cycles).1)
      (f := c.2) hk' hnd ho hname
    rw [h3] at hstep
    simp only [presentStep] at hstep
    exact ⟨_, hstep.1, rfl, rfl⟩

/-- C10 (implicit): a tracked identity whose announce never fired
(`event_triggered` false) is never removed by absent cycles — its absence
counter keeps growing past the departure threshold with no DEPARTED event
and no deletion — and while it lingers the tracker's state map is
nonempty, so no NO_FACES event can be emitted on any of those cycles. -/
theorem c10_unannounced_state_lingers (m : EventManager) (n : String)
    (st : PersonState) (cycles : List Cycle)
    (hk : (keys m.current_state).Nodup)
    (hst : lookupPS m.current_state n = some st)
    (htrig : st.event_triggered = false)
    (habs : ∀ c ∈ cycles, n ∉ c.1.map (fun o => o.name)) :
    (∃ st', lookupPS (runCycles m cycles).1.current_state n = some st' ∧
      st'.departed_frames = st.departed_frames + cycles.length ∧
      st'.event_triggered = false) ∧
    departedCount n (runCycles m cycles).2 = 0 ∧
    noFacesCount (runCycles m cycles).2 = 0 := by
  have h := runCycles_absent_untriggered cycles m st hk habs hst htrig
  exact ⟨h.1, h.2.2.1, h.2.2.2⟩

/-- C3 counterexample: with a speech backend that raises for every
subject, delivering a RECOGNIZED event for Alice to a fresh coordinator
makes the gesture and speech calls but leaves the greeted set empty and
records no latency sample — refuting the claim that the subject is still
marked greeted and a partial latency sample still recorded after a raising
speech call. -/
theorem c3_counterexample :
    on_person_recognized (fun _ => true)
      { greeted_persons := [], greeting_in_progress := false,
        total_greetings := 0, latencies := 0, pending_greetings := [],
        gesture_speech_delay := 3/10, use_enhanced_voice := true,
        has_legacy_tts := false }
      ⟨EventType.person_recognized, "Alice", 1, none, 1⟩ =
    ({ greeted_persons := [], greeting_in_progress := false,
       total_greetings := 0, latencies := 0, pending_greetings := [],
       gesture_speech_delay := 3/10, use_enhanced_voice := true,
       has_legacy_tts := false },
     [CoordCall.gesture, CoordCall.speech "Alice"]) := by
  simp [on_person_recognized, execute_greeting, process_pending_greetings]

/-- C3 (amended): when the speech backend call raises during the greeting
sequence for a subject S, the exception is caught at the coordination
boundary — the callback returns normally with the in-progress flag
cleared, after having made the gesture request and the speech call — but S
is NOT added to the greeted set and NO latency sample is recorded, so a
repeat RECOGNIZED event for S retries the greeting rather than being
discarded.  (Stated for an idle coordinator with an empty pending queue,
which is the state in which the sequence for S runs.) -/
theorem c3_amended_speech_exception (env : SpeechEnv) (s : GreetingCoordinator)
    (ev : RecognitionEvent)
    (henv : env ev.person_name = true)
    (hg : s.greeted_persons.contains ev.person_name = false)
    (hip : s.greeting_in_progress = false)
    (hp : s.pending_greetings = [])
    (htts : (s.use_enhanced_voice || s.has_legacy_tts) = true) :
    on_person_recognized env s ev =
      (s, [CoordCall.gesture, CoordCall.speech ev.person_name]) := by
  obtain ⟨g, ip, tg, lat, pend, gd, ue, hl⟩ := s
  simp only at hg hip hp htts
  subst hip
  subst hp
  rw [on_person_recognized]
  simp only [hg, Bool.false_eq_true, if_false]
  rw [execute_greeting]
  simp only [htts, if_true, henv]
  rw [process_pending_greetings.eq_def]
  simp

/-- Witness for the amended C3: speech raises for Bob on a coordinator
that has greeted only Carol. -/
theorem c3_amended_speech_exception_witness :
    on_person_recognized (fun _ => true)
      { greeted_persons := ["Carol"], greeting_in_progress := false,
        total_greetings := 1, latencies := 1, pending_greetings := [],
        gesture_speech_delay := 3/10, use_enhanced_voice := true,
        has_legacy_tts := false }
      ⟨EventType.person_recognized, "Bob", 1, none, 7⟩ =
    ({ greeted_persons := ["Carol"], greeting_in_progress := false,
       total_greetings := 1, latencies := 1, pending_greetings := [],
       gesture_speech_delay := 3/10, use_enhanced_voice := true,
       has_legacy_tts := false },
     [CoordCall.gesture, CoordCall.speech "Bob"]) :=
  c3_amended_speech_exception (fun _ => true)
    { greeted_persons := ["Carol"], greeting_in_progress := false,
      total_greetings := 1, latencies := 1, pending_greetings := [],
      gesture_speech_delay := 3/10, use_enhanced_voice := true,
      has_legacy_tts := false }
    ⟨EventType.person_recognized, "Bob", 1, none, 7⟩
    rfl (by decide) rfl rfl rfl

/-- C7: (a) a RECOGNIZED event for a not-yet-greeted subject arriving while
a greeting is in progress is appended to the pending queue with no
immediate response (no scheduler or speech call); (b) once the in-flight
greeting has completed (in-progress flag clear), draining the queue holding
two distinct not-yet-greeted subjects serves the higher-confidence subject
first and then the other, regardless of the order in which they arrived,
emptying the queue. -/
theorem c7_confidence_ordered_drain (env : SpeechEnv) (s q : GreetingCoordinator)
    (e1 e2 : RecognitionEvent) :
    (s.greeting_in_progress = true →
     s.greeted_persons.contains e1.person_name = false →
     on_person_recognized env s e1 =
       ({ s with pending_greetings := s.pending_greetings ++ [e1] }, [])) ∧
    (q.greeting_in_progress = false →
     (q.pending_greetings = [e1, e2] ∨ q.pending_greetings = [e2, e1]) →
     e2.confidence < e1.confidence →
     e1.person_name ≠ e2.person_name →
     q.greeted_persons.contains e1.person_name = false →
     q.greeted_persons.contains e2.person_name = false →
     env e1.person_name = false →
     env e2.person_name = false →
     (q.use_enhanced_voice || q.has_legacy_tts) = true →
     process_pending_greetings env q =
       ({ q with pending_greetings := [],
                 greeted_persons := addGreeted (addGreeted q.greeted_persons
                   e1.person_name) e2.person_name,
                 total_greetings := q.total_greetings + 2,
                 latencies := q.latencies + 2,
                 greeting_in_progress := false },
        [CoordCall.gesture, CoordCall.speech e1.person_name,
         CoordCall.gesture, CoordCall.speech e2.person_name])) := by
  constructor
  · intro hbusy hng
    rw [on_person_recognized]
    rw [if_neg (by simpa using hng), if_pos hbusy]
  · intro hip hpq hconf hne hg1 hg2 henv1 henv2 htts
    have hnotlt : ¬ (e1.confidence < e2.confidence) := fun h => lt_asymm h hconf
    have hg1m : e1.person_name ∉ q.greeted_persons := by simpa using hg1
    have hg2m : e2.person_name ∉ q.greeted_persons := by simpa using hg2
    have hne2 : e2.person_name ≠ e1.person_name := fun h => hne h.symm
    have hsorted : sortByConfDesc q.pending_greetings = [e1, e2] := by
      rcases hpq with h | h <;> rw [h]
      · show insertByConfDesc e1 (insertByConfDesc e2 []) = [e1, e2]
        simp only [insertByConfDesc]
        rw [if_neg hnotlt]
      · show insertByConfDesc e2 (insertByConfDesc e1 []) = [e1, e2]
        simp only [insertByConfDesc]
        rw [if_pos hconf]
    have hpne : q.pending_greetings.isEmpty = false := by
      rcases hpq with h | h <;> simp [h]
    have hg2' : (addGreeted q.greeted_persons e1.person_name).contains
        e2.person_name = false := by
      unfold addGreeted
      rw [if_neg (by simpa using hg1)]
      simp [hg2m, hne2]
    have hfind1 : List.find?
        (fun e => !(q.greeted_persons.contains e.person_name)) [e1, e2]
        = some e1 := by
      rw [List.find?_cons_of_pos]
      simp [hg1m]
    have hg2'm : e2.person_name ∉ addGreeted q.greeted_persons e1.person_name := by
      simpa using hg2'
    have hfind2 : List.find?
        (fun e => !((addGreeted q.greeted_persons e1.person_name).contains
          e.person_name)) [e2] = some e2 := by
      rw [List.find?_cons_of_pos]
      simp [hg2'm]
    rw [process_pending_greetings.eq_def]
    rw [dif_neg (by simp [hpne])]
    simp only [hsorted]
    split
    · rename_i heq
      rw [hsorted, hfind1] at heq
      simp at heq
    · rename_i e heq
      rw [hsorted, hfind1] at heq
      obtain rfl : e1 = e := by simpa using heq
      rw [List.erase_cons_head]
      rw [execute_greeting]
      simp only [htts, if_true, henv1, Bool.false_eq_true, if_false]
      try dsimp only
      rw [process_pending_greetings.eq_def]
      rw [dif_neg (by simp)]
      have hsorted2 : sortByConfDesc [e2] = [e2] := rfl
      simp only [hsorted2]
      split
      · rename_i heq2
        rw [show sortByConfDesc [e2] = [e2] from rfl, hfind2] at heq2
        simp at heq2
      · rename_i e' heq2
        rw [show sortByConfDesc [e2] = [e2] from rfl, hfind2] at heq2
        obtain rfl : e2 = e' := by simpa using heq2
        rw [List.erase_cons_head]
        rw [execute_greeting]
        simp only [htts, if_true, henv2, Bool.false_eq_true, if_false]
        try dsimp only
        rw [process_pending_greetings.eq_def]
        rw [dif_pos (by rfl)]
        rfl

/-- Witness for C7 at Scenario D's shape: Bob (lower confidence) arrives
before Charlie (higher confidence); Charlie queues while a greeting is in
progress, and the drain serves Charlie before Bob. -/
theorem c7_confidence_ordered_drain_witness :
    on_person_recognized (fun _ => false)
      ({ greeting_in_progress := true } : GreetingCoordinator)
      ⟨EventType.person_recognized, "Charlie", 1, none, 3⟩ =
      ({ greeting_in_progress := true,
         pending_greetings :=
           [⟨EventType.person_recognized, "Charlie", 1, none, 3⟩] }, []) ∧
    process_pending_greetings (fun _ => false)
      ({ pending_greetings :=
          [⟨EventType.person_recognized, "Bob", 0, none, 2⟩,
           ⟨EventType.person_recognized, "Charlie", 1, none, 3⟩] } :
        GreetingCoordinator) =
      ({ pending_greetings := [],
         greeted_persons := addGreeted (addGreeted [] "Charlie") "Bob",
         total_greetings := 2, latencies := 2, greeting_in_progress := false },
       [CoordCall.gesture, CoordCall.speech "Charlie",
        CoordCall.gesture, CoordCall.speech "Bob"]) :=
  ⟨(c7_confidence_ordered_drain (fun _ => false)
      { greeting_in_progress := true }
      { pending_greetings :=
          [⟨EventType.person_recognized, "Bob", 0, none, 2⟩,
           ⟨EventType.person_recognized, "Charlie", 1, none, 3⟩] }
      ⟨EventType.person_recognized, "Charlie", 1, none, 3⟩
      ⟨EventType.person_recognized, "Bob", 0, none, 2⟩).1 rfl (by decide),
   (c7_confidence_ordered_drain (fun _ => false)
      { greeting_in_progress := true }
      { pending_greetings :=
          [⟨EventType.person_recognized, "Bob", 0, none, 2⟩,
           ⟨EventType.person_recognized, "Charlie", 1, none, 3⟩] }
      ⟨EventType.person_recognized, "Charlie", 1, none, 3⟩
      ⟨EventType.person_recognized, "Bob", 0, none, 2⟩).2 rfl
     (Or.inr rfl) (by decide) (by decide) (by decide) (by decide) rfl rfl rfl⟩

/-- Witness for C8 at Scenario B: Alice announced after 3 present cycles,
then 3 absent cycles at departure threshold 3 — exactly one DEPARTED. -/
theorem c8_departed_exactly_once_witness :
    departedCount "Alice" (runCycles (runCycles (initManager 3 3)
        [([⟨"Alice", 1, (0, 0, 0, 0)⟩], some 1),
         ([⟨"Alice", 1, (0, 0, 0, 0)⟩], some 2),
         ([⟨"Alice", 1, (0, 0, 0, 0)⟩], some 3)]).1
        [([], some 4), ([], some 5), ([], some 6)]).2 =
      (if (runCycles (initManager 3 3)
            [([⟨"Alice", 1, (0, 0, 0, 0)⟩], some 1),
             ([⟨"Alice", 1, (0, 0, 0, 0)⟩], some 2),
             ([⟨"Alice", 1, (0, 0, 0, 0)⟩], some 3)]).1.departed_threshold ≤
          ([([], some 4), ([], some 5), ([], some 6)] : List Cycle).length
       then 1 else 0) :=
  (c8_departed_exactly_once
    (runCycles (initManager 3 3)
      [([⟨"Alice", 1, (0, 0, 0, 0)⟩], some 1),
       ([⟨"Alice", 1, (0, 0, 0, 0)⟩], some 2),
       ([⟨"Alice", 1, (0, 0, 0, 0)⟩], some 3)]).1
    "Alice"
    { name := "Alice", consecutive_frames := 3, departed_frames := 0,
      last_confidence := 1, last_bbox := some ((0:Int), 0, 0, 0),
      event_triggered := true }
    [([], some 4), ([], some 5), ([], some 6)]
    (by decide) (by decide) (by decide) (by decide) (by decide) (by decide)).1

/-- Witness for C10: Alice seen once (never announced, debounce 3), then
five absent cycles at departure threshold 3 — her state lingers with
absence counter 5, past the threshold, with no DEPARTED and no NO_FACES. -/
theorem c10_unannounced_state_lingers_witness :
    (∃ st', lookupPS (runCycles (runCycles (initManager 3 3)
        [([⟨"Alice", 1, (0, 0, 0, 0)⟩], some 1)]).1
        [([], some 2), ([], some 3), ([], some 4),
         ([], some 5), ([], some 6)]).1.current_state "Alice" = some st' ∧
      st'.departed_frames =
        ({ name := "Alice", consecutive_frames := 1, departed_frames := 0,
           last_confidence := 1, last_bbox := some ((0:Int), 0, 0, 0),
           event_triggered := false } : PersonState).departed_frames +
        ([([], some 2), ([], some 3), ([], some 4),
          ([], some 5), ([], some 6)] : List Cycle).length ∧
      st'.event_triggered = false) ∧
    departedCount "Alice" (runCycles (runCycles (initManager 3 3)
        [([⟨"Alice", 1, (0, 0, 0, 0)⟩], some 1)]).1
        [([], some 2), ([], some 3), ([], some 4),
         ([], some 5), ([], some 6)]).2 = 0 ∧
    noFacesCount (runCycles (runCycles (initManager 3 3)
        [([⟨"Alice", 1, (0, 0, 0, 0)⟩], some 1)]).1
        [([], some 2), ([], some 3), ([], some 4),
         ([], some 5), ([], some 6)]).2 = 0 :=
  c10_unannounced_state_lingers
    (runCycles (initManager 3 3) [([⟨"Alice", 1, (0, 0, 0, 0)⟩], some 1)]).1
    "Alice"
    { name := "Alice", consecutive_frames := 1, departed_frames := 0,
      last_confidence := 1, last_bbox := some ((0:Int), 0, 0, 0),
      event_triggered := false }
    [([], some 2), ([], some 3), ([], some 4), ([], some 5), ([], some 6)]
    (by decide) (by decide) (by decide) (by decide)

end ReachyRecognizer
